import Mathlib

/-!
# Verification of the datago analytics kernel

A shallow embedding, in Lean 4, of the parts of the `datago` Go repository
(packages `dataframe` and `io`) that the specification's claims are about:
the dynamic cell-value model, the label index, `Series`, `DataFrame`, label
selection (`Loc`), filtering (`Filter` / `ParallelFilter`), sorting
(`SortBy` / `SortValues`, delegating to Go's `sort.Slice`, i.e. the
pattern-defeating quicksort of the Go ≥ 1.19 standard library — the
repository's README requires Go 1.24+), group-by with `Agg`, and the hash
join family (`Merge`).

Model boundaries, stated once here:

* Go `interface{}` cell values are modelled by the inductive type `Value`.
  Go interface equality (dynamic type AND value) is structural equality on
  `Value`; in particular an `int` label and an `int64` label are never
  equal, exactly as in Go.
* Go `float64` is modelled as an exact rational (`ℚ`).  IEEE NaN and ±Inf
  values, and the textual tokens producing them, are outside the model;
  NaN cells are treated by the source as NA (`IsNA`) in every statistical
  path modelled here.  Integer-to-float coercion is modelled exactly (the
  source's rounding of integers beyond 2^53 is not modelled; no claim
  below depends on it).  `math.MaxFloat64 = 2^1024 - 2^971` is exact.
* `fmt.Sprintf("%v", x)` is modelled by `render`.  For floats the model
  prints a definite but approximate form; every universally quantified
  theorem below that touches `render` holds for any choice of rendering,
  and every concrete witness avoids float-valued keys.
* Go maps are modelled as lookup functions; wherever the source *iterates*
  a map (whose order Go randomises) the embedding takes the iteration
  order as an explicit argument constrained to be an arrangement of the
  map's keys.
* Per-column slice appends performed inside `range`-over-map loops are
  modelled column-wise: each result column's cell list is produced by one
  map over the emission sequence, which is observationally identical
  because each loop iteration appends exactly one cell to every column.
* `sort.Slice` (Go standard library, not part of this repository) is
  modelled by its documented contract: its outcome is an explicit argument
  constrained to be a permutation of the input with no adjacent inversion
  under the comparator; the documentation explicitly does not promise
  stability.
-/

set_option maxRecDepth 8000

namespace Datago

/-- Dynamic cell value (`interface{}` in the source).  `vint` is a Go `int`,
`vint64` a Go `int64`: distinct dynamic types that never compare equal. -/
inductive Value where
  | vnil : Value
  | vint : Int → Value
  | vint64 : Int → Value
  | vfloat : ℚ → Value
  | vstr : String → Value
  | vbool : Bool → Value
deriving DecidableEq, Repr

/-- Column dtype tags (dtypes.go). -/
inductive DType where
  | unknown | int64 | float64 | string | bool | datetime | object
deriving DecidableEq, Repr

/-- `InferDType` (dtypes.go): dtype of a single value. -/
def InferDType : Value → DType
  | .vnil => .object
  | .vint _ => .int64
  | .vint64 _ => .int64
  | .vfloat _ => .float64
  | .vstr _ => .string
  | .vbool _ => .bool

/-- `InferDTypeFromSlice` (dtypes.go): first non-nil value wins, all-nil or
empty gives object. -/
def InferDTypeFromSlice (values : List Value) : DType :=
  match values.find? (· ≠ Value.vnil) with
  | some v => InferDType v
  | none => .object

/-- `IsNA` (dtypes.go): nil, the NA text tokens.  (Float NaN, also NA in the
source, is outside the rational float model.) -/
def IsNA : Value → Bool
  | .vnil => true
  | .vstr s => s = "" ∨ s = "NA" ∨ s = "NaN" ∨ s = "null"
  | _ => false

/-- Digit run to a natural number. -/
def digitsVal (cs : List Char) : Nat :=
  cs.foldl (fun a c => a * 10 + (c.toNat - 48)) 0

/-- The float scan of `fmt.Sscanf(s, "%f")` as used by `toFloat64`
(dtypes.go): skip leading spaces, optional sign, decimal mantissa with
optional fraction, optional `e`/`E` exponent; trailing non-float input is
ignored (Go's scanner stops at the first character that cannot extend the
token).  Hex floats and the Inf/NaN tokens are outside the model. -/
def parseFloatQ (s : String) : Option ℚ :=
  let cs := s.data.dropWhile (· = ' ')
  let (neg, cs1) : Bool × List Char :=
    match cs with
    | '-' :: r => (true, r)
    | '+' :: r => (false, r)
    | _ => (false, cs)
  let ipart := cs1.takeWhile Char.isDigit
  let cs2 := cs1.dropWhile Char.isDigit
  let (fpart, cs3) : List Char × List Char :=
    match cs2 with
    | '.' :: r => (r.takeWhile Char.isDigit, r.dropWhile Char.isDigit)
    | _ => ([], cs2)
  if ipart = [] ∧ fpart = [] then none
  else
    let mant : ℚ := (digitsVal ipart : ℚ) + (digitsVal fpart : ℚ) / ((10 : ℚ) ^ fpart.length)
    let signed : ℚ := if neg then -mant else mant
    match cs3 with
    | c :: r =>
      if c = 'e' ∨ c = 'E' then
        let (esign, r2) : Int × List Char :=
          match r with
          | '-' :: t => (-1, t)
          | '+' :: t => (1, t)
          | _ => (1, r)
        let ed := r2.takeWhile Char.isDigit
        if ed = [] then none
        else some (signed * (10 : ℚ) ^ (esign * (digitsVal ed : Int)))
      else some signed
    | [] => some signed

/-- `toFloat64` (dtypes.go): ints and floats coerce, strings parse via the
`%f` scan, everything else (bool, nil) fails. -/
def toFloat64 : Value → Option ℚ
  | .vint n => some (n : ℚ)
  | .vint64 n => some (n : ℚ)
  | .vfloat q => some q
  | .vstr s => parseFloatQ s
  | _ => none

/-- `fmt.Sprintf("%v", ·)` (model).  Floats print a definite but
approximate form (exact for integral values, which Go's `%v` also prints
without a decimal point); no theorem below depends on the float case. -/
def render : Value → String
  | .vnil => "<nil>"
  | .vint n => toString n
  | .vint64 n => toString n
  | .vfloat q => if q.den = 1 then toString q.num else toString q.num ++ "/" ++ toString q.den
  | .vstr s => s
  | .vbool b => if b then "true" else "false"

/-- `math.MaxFloat64` exactly: `(2 - 2^-52) * 2^1023 = 2^1024 - 2^971`. -/
def maxFloat64Q : ℚ := ((2 ^ 1024 - 2 ^ 971 : Nat) : ℚ)

/-! ## Label index (index.go, src/unnamed/part_013) -/

/-- `Index`: ordered labels plus a name. -/
structure IndexV where
  labels : List Value
  name : String
deriving DecidableEq, Repr

namespace IndexV

/-- `NewRangeIndex(size)`: labels are Go `int` values 0..size-1, empty name. -/
def range (size : Nat) : IndexV :=
  { labels := (List.range size).map (fun i => Value.vint i), name := "" }

/-- `Index.Len`. -/
def lenV (idx : IndexV) : Nat := idx.labels.length

/-- `Index.Get(pos)`: label at a position, `none` on the out-of-range error. -/
def getV (idx : IndexV) (pos : Nat) : Option Value := idx.labels.get? pos

/-- The scan inside `Index.GetLoc`: first position at or after `i` whose
label is Go-equal to the argument. -/
def getLocAux (label : Value) : List Value → Nat → Option Nat
  | [], _ => none
  | l :: t, i => if l = label then some i else getLocAux label t (i + 1)

/-- `Index.GetLoc(label)`: first position whose label is Go-equal (dynamic
type and value) to the argument; `none` models the not-found error. -/
def getLoc (idx : IndexV) (label : Value) : Option Nat :=
  getLocAux label idx.labels 0

/-- `Index.Slice(start,end)` with the source's clamping; copies the labels. -/
def sliceV (idx : IndexV) (start stop : Nat) : IndexV :=
  let stop' := min stop idx.labels.length
  { labels := (idx.labels.take stop').drop start, name := idx.name }

end IndexV

/-! ## Series, value level (series.go, src/unnamed/part_012) -/

/-- `Series`: name, cells, dtype, index. -/
structure SeriesV where
  name : String
  data : List Value
  dtype : DType
  index : IndexV
deriving DecidableEq, Repr

namespace SeriesV

/-- `NewSeries(data, name)`. -/
def mk' (data : List Value) (name : String) : SeriesV :=
  { name := name, data := data, dtype := InferDTypeFromSlice data,
    index := IndexV.range data.length }

/-- `NewSeriesWithIndex(data, name, index)` (index non-nil case). -/
def mkWithIndex (data : List Value) (name : String) (index : IndexV) : SeriesV :=
  { name := name, data := data, dtype := InferDTypeFromSlice data, index := index }

/-- `NewSeriesFromInts`: each Go `int` is converted to an `int64` cell. -/
def fromInts (data : List Int) (name : String) : SeriesV :=
  { name := name, data := data.map Value.vint64, dtype := .int64,
    index := IndexV.range data.length }

/-- `Series.Get(pos)`: `none` models the out-of-range error. -/
def getV (s : SeriesV) (pos : Nat) : Option Value := s.data.get? pos

/-- `Series.At(label)`: label lookup through the index, then the cell.
The source indexes `s.data[pos]` directly with the found position. -/
def atV (s : SeriesV) (label : Value) : Option Value :=
  (s.index.getLoc label).bind fun pos => s.data.get? pos

/-- The numerically coerced non-NA cells of a series, in order: the values
the statistical fold of `Min`/`Max` actually visits. -/
def coercibles (s : SeriesV) : List ℚ :=
  (s.data.filter (fun v => !(IsNA v))).filterMap toFloat64

/-- One step of the `Min` fold: skip NA, skip non-coercible, update the
running minimum only on a strict decrease (series.go `Min`). -/
def minStep (acc : ℚ × Bool) (v : Value) : ℚ × Bool :=
  if IsNA v then acc
  else match toFloat64 v with
    | some f => if f < acc.1 then (f, true) else acc
    | none => acc

/-- `Series.Min`: fold with the `math.MaxFloat64` sentinel and a `found`
flag; returns nil when the flag was never set. -/
def minV (s : SeriesV) : Value :=
  let r := s.data.foldl minStep (maxFloat64Q, false)
  if r.2 then Value.vfloat r.1 else Value.vnil

/-- One step of the `Max` fold (series.go `Max`): sentinel `-MaxFloat64`,
update only on a strict increase. -/
def maxStep (acc : ℚ × Bool) (v : Value) : ℚ × Bool :=
  if IsNA v then acc
  else match toFloat64 v with
    | some f => if acc.1 < f then (f, true) else acc
    | none => acc

/-- `Series.Max`. -/
def maxV (s : SeriesV) : Value :=
  let r := s.data.foldl maxStep (-maxFloat64Q, false)
  if r.2 then Value.vfloat r.1 else Value.vnil

end SeriesV

end Datago

namespace Datago

/-! ## DataFrame, value level (dataframe.go, src/unnamed/part_009) -/

/-- `DataFrame`: ordered column names, a column-name → series map (modelled
as a lookup function), the shared row index, and the cached shape. -/
structure DataFrameV where
  columns : List String
  data : String → Option SeriesV
  index : IndexV
  shape : Nat × Nat

/-- Frame well-formedness, the invariants the Go code maintains: every
listed column has a backing series of `shape.1` cells, the index has
`shape.1` labels, and `shape.2` is the column count. -/
def DataFrameV.wf (df : DataFrameV) : Prop :=
  (∀ c ∈ df.columns, ∃ s, df.data c = some s ∧ s.data.length = df.shape.1) ∧
  df.index.labels.length = df.shape.1 ∧ df.shape.2 = df.columns.length

/-- Cell access used by the statements below: the series backing column `c`,
then its cell at row `i`. -/
def DataFrameV.cell (df : DataFrameV) (c : String) (i : Nat) : Option Value :=
  (df.data c).bind fun s => s.data.get? i

/-- The empty frame returned by `New` on an empty map. -/
def emptyFrame : DataFrameV :=
  { columns := [], data := fun _ => none, index := IndexV.range 0, shape := (0, 0) }

/-- The row-count scan of `New`: `rowCount` starts at 0 and is treated as
"unset" whenever it is still 0, so zero-length columns seen before the
first nonzero-length column are never length-checked (the slip behind the
C6 finding). -/
def newRowCount : List (String × List Value) → Nat → Except String Nat
  | [], rc => .ok rc
  | (c, vs) :: t, rc =>
    if rc = 0 then newRowCount t vs.length
    else if vs.length ≠ rc then
      .error ("column '" ++ c ++ "' length " ++ toString vs.length ++ " does not match " ++ toString rc)
    else newRowCount t rc

/-- `New(data)` (dataframe.go).  Go iterates the argument map in a
randomised order; `entries` is that iteration order, values attached. -/
def NewV (entries : List (String × List Value)) : Except String DataFrameV :=
  if entries.isEmpty then .ok emptyFrame
  else
    (newRowCount entries 0).map fun rowCount =>
      let columns := entries.map (·.1)
      { columns := columns
        data := fun c => (entries.find? (·.1 = c)).map fun e => SeriesV.mk' e.2 c
        index := IndexV.range rowCount
        shape := (rowCount, columns.length) }

/-- `FromRecords(records, columns)` (dataframe.go).  `σ` is the iteration
order of the intermediate `colData` map handed to `New`. -/
def FromRecordsV (records : List (List Value)) (columns : List String)
    (σ : List String) : Except String DataFrameV :=
  if records.isEmpty then
    .ok { columns := columns, data := fun _ => none,
          index := IndexV.range 0, shape := (0, columns.length) }
  else if columns.isEmpty then .error "columns cannot be empty"
  else
    match (List.range records.length).find?
        (fun i => ((records.get? i).map List.length) ≠ some columns.length) with
    | some i =>
      .error ("row " ++ toString i ++ " length does not match columns length")
    | none =>
      NewV (σ.map fun c =>
        (c, records.flatMap fun r =>
          (List.range columns.length).filterMap fun j =>
            if columns.get? j = some c then r.get? j else none))

/-- A `Row` view: `Row.Get` returns the map entry, nil when absent. -/
def RowV := String → Value

/-- `DataFrame.Row(pos)`'s view: one entry per listed column, the cell at
`pos` (nil on a `Get` error), nil for names outside the frame. -/
def DataFrameV.rowOf (df : DataFrameV) (pos : Nat) : RowV := fun c =>
  if c ∈ df.columns then
    match df.data c with
    | some s => s.data.getD pos Value.vnil
    | none => Value.vnil
  else Value.vnil

/-- Row-label selector of `Loc`: nil / `[]interface{}` / scalar. -/
inductive RowSel where
  | all : RowSel
  | list : List Value → RowSel
  | scalar : Value → RowSel

/-- Column selector of `Loc`: nil / `[]string` / `string` (any other
dynamic type also selects all columns). -/
inductive ColSel where
  | all : ColSel
  | list : List String → ColSel
  | scalar : String → ColSel

/-- `DataFrame.Loc(rowLabels, colLabels)` (selection.go, src/unnamed/part_008).
Row labels that fail `GetLoc` are silently skipped; the requested column
names are taken verbatim as the result's column list, but only names
backed in the source frame get a series in the result map. -/
def DataFrameV.locV (df : DataFrameV) (rowSel : RowSel) (colSel : ColSel) : DataFrameV :=
  let rowPositions : List Nat :=
    match rowSel with
    | .all => List.range df.shape.1
    | .list ls => ls.filterMap df.index.getLoc
    | .scalar v =>
      match df.index.getLoc v with
      | some pos => [pos]
      | none => []
  let cols : List String :=
    match colSel with
    | .all => df.columns
    | .list cs => cs
    | .scalar c => [c]
  let newLabels := rowPositions.map fun p => df.index.labels.getD p Value.vnil
  { columns := cols
    data := fun c =>
      if c ∈ cols then
        (df.data c).map fun s =>
          SeriesV.mkWithIndex (rowPositions.map fun p => s.data.getD p Value.vnil) c
            ⟨newLabels, df.index.name⟩
      else none
    index := ⟨newLabels, df.index.name⟩
    shape := (rowPositions.length, cols.length) }

/-- `DataFrame.Filter(fn)` (selection.go): collect passing positions, then
re-select THROUGH THE LABELS via `Loc` (so duplicate labels resolve to
their first occurrence). -/
def DataFrameV.filterV (df : DataFrameV) (fn : RowV → Bool) : DataFrameV :=
  let rows := (List.range df.shape.1).filter fun i => fn (df.rowOf i)
  df.locV (.list (rows.map fun p => df.index.labels.getD p Value.vnil)) .all

/-- `DataFrame.Copy` at value level: only listed columns survive into the
copied series map. -/
def DataFrameV.copyV (df : DataFrameV) : DataFrameV :=
  { columns := df.columns
    data := fun c => if c ∈ df.columns then df.data c else none
    index := df.index
    shape := df.shape }

/-! ## Parallel fabric (parallel.go, src/unnamed/part_011) -/

/-- `ParallelOptions`. -/
structure ParallelOptionsV where
  numWorkers : Int
  chunkSize : Int

/-- `getNumWorkers(opts, dataSize)`; `numCPU` is `runtime.NumCPU()`. -/
def getNumWorkersV (opts : ParallelOptionsV) (numCPU : Nat) (dataSize : Nat) : Nat :=
  if opts.numWorkers > 0 then opts.numWorkers.toNat
  else
    let minChunk : Nat := if opts.chunkSize ≤ 0 then 1000 else opts.chunkSize.toNat
    let maxWorkers := (dataSize + minChunk - 1) / minChunk
    let maxWorkers := if maxWorkers < 1 then 1 else maxWorkers
    if numCPU < maxWorkers then numCPU else maxWorkers

/-- The position list worker `w` of `ParallelFilter` contributes: its
contiguous chunk, filtered, in position order. -/
def pfChunk (df : DataFrameV) (fn : RowV → Bool) (chunkSize n w : Nat) : List Nat :=
  let start := w * chunkSize
  let stop := min (start + chunkSize) n
  if start ≥ n then []
  else (List.range' start (stop - start)).filter fun i => fn (df.rowOf i)

/-- `DataFrame.ParallelFilter(fn, opts)` (parallel.go): per-worker index
lists merged in worker order, result series rebuilt with `NewSeries`
(fresh range indexes), result frame index a fresh range index. -/
def DataFrameV.parallelFilterV (df : DataFrameV) (fn : RowV → Bool)
    (opts : ParallelOptionsV) (numCPU : Nat) : DataFrameV :=
  let n := df.shape.1
  if n = 0 then df.copyV
  else
    let numWorkers := getNumWorkersV opts numCPU n
    if numWorkers ≤ 1 then df.filterV fn
    else
      let chunkSize := (n + numWorkers - 1) / numWorkers
      let allIndices := (List.range numWorkers).flatMap (pfChunk df fn chunkSize n)
      if allIndices.isEmpty then
        { columns := df.columns, data := fun _ => none,
          index := IndexV.range 0, shape := (0, df.columns.length) }
      else
        { columns := df.columns
          data := fun c =>
            if c ∈ df.columns then
              (df.data c).map fun s =>
                SeriesV.mk' (allIndices.map fun i => s.data.getD i Value.vnil) c
            else none
          index := IndexV.range allIndices.length
          shape := (allIndices.length, df.columns.length) }

end Datago

namespace Datago

/-! ## Helper lemmas: label lookup -/

theorem getLocAux_eq_none {label : Value} :
    ∀ (l : List Value) (i : Nat), (∀ v ∈ l, v ≠ label) → IndexV.getLocAux label l i = none := by
  intro l
  induction l with
  | nil => intro i _; rfl
  | cons a t ih =>
    intro i h
    have ha : a ≠ label := h a (List.mem_cons_self a t)
    simp only [IndexV.getLocAux, if_neg ha]
    exact ih (i + 1) fun v hv => h v (List.mem_cons_of_mem a hv)

theorem getLocAux_roundtrip {l : List Value} (hnd : l.Nodup) :
    ∀ (p i : Nat) (hp : p < l.length), IndexV.getLocAux (l.get ⟨p, hp⟩) l i = some (i + p) := by
  induction l with
  | nil => intro p i hp; exact absurd hp (by simp)
  | cons a t ih =>
    intro p i hp
    match p with
    | 0 => simp [IndexV.getLocAux]
    | q + 1 =>
      have hq : q < t.length := by simpa using hp
      have hmem : t.get ⟨q, hq⟩ ∈ t := t.get_mem q hq
      have hne : a ≠ t.get ⟨q, hq⟩ := by
        intro he; exact (List.nodup_cons.mp hnd).1 (he ▸ hmem)
      have hgt : (a :: t).get ⟨q + 1, hp⟩ = t.get ⟨q, hq⟩ := rfl
      rw [hgt]
      show (if a = t.get ⟨q, hq⟩ then some i else IndexV.getLocAux (t.get ⟨q, hq⟩) t (i + 1)) =
        some (i + (q + 1))
      rw [if_neg hne, ih (List.nodup_cons.mp hnd).2 q (i + 1) hq]
      congr 1
      omega

theorem getLoc_roundtrip {idx : IndexV} (hnd : idx.labels.Nodup) {p : Nat}
    (hp : p < idx.labels.length) : idx.getLoc (idx.labels.get ⟨p, hp⟩) = some p := by
  have := getLocAux_roundtrip hnd p 0 hp
  simpa [IndexV.getLoc] using this

/-! ## C9 — label lookup uses Go interface equality (dynamic type + value) -/

/-- C9: `Index.GetLoc` compares labels by Go interface equality, so a lookup
with a label of a different dynamic type fails even when numerically equal:
`GetLoc(int64 x)` always fails on a default range index (whose labels are
Go `int`s), the `int`-typed series constructor stores `int64` cells over a
range index, and hence `Series.At(int64 x)` on such a series always returns
the not-found error.  Moreover `int` and `int64` values are never equal. -/
theorem claim_C9_getLoc_interface_equality :
    (∀ (n : Nat) (x : Int), (IndexV.range n).getLoc (Value.vint64 x) = none) ∧
    (∀ (data : List Int) (name : String),
      (SeriesV.fromInts data name).data = data.map Value.vint64 ∧
      (SeriesV.fromInts data name).index = IndexV.range data.length) ∧
    (∀ (data : List Int) (name : String) (x : Int),
      (SeriesV.fromInts data name).atV (Value.vint64 x) = none) ∧
    (∀ m : Int, Value.vint m ≠ Value.vint64 m) := by
  have hrange : ∀ (n : Nat) (x : Int), (IndexV.range n).getLoc (Value.vint64 x) = none := by
    intro n x
    apply getLocAux_eq_none
    intro v hv
    simp only [IndexV.range, List.mem_map] at hv
    obtain ⟨i, _, rfl⟩ := hv
    simp
  refine ⟨hrange, fun data name => ⟨rfl, rfl⟩, ?_, fun m h => by cases h⟩
  intro data name x
  simp [SeriesV.atV, SeriesV.fromInts, hrange data.length x]

end Datago

namespace Datago

/-! ## Helper lemmas: the Min/Max folds of series.go -/

/-- The coerced non-NA values of a raw cell list. -/
def csOf (l : List Value) : List ℚ :=
  (l.filter (fun v => !(IsNA v))).filterMap toFloat64

theorem coercibles_eq (s : SeriesV) : s.coercibles = csOf s.data := rfl

theorem minFold (l : List Value) :
    ∀ (m : ℚ) (fnd : Bool),
      l.foldl SeriesV.minStep (m, fnd) =
        ((csOf l).foldl min m, fnd || (csOf l).any (fun f => decide (f < m))) := by
  induction l with
  | nil => intro m fnd; simp [csOf]
  | cons v t ih =>
    intro m fnd
    cases hna : IsNA v with
    | true =>
      have hcs : csOf (v :: t) = csOf t := by simp [csOf, hna]
      simp only [List.foldl_cons, SeriesV.minStep, hna, if_pos rfl, hcs]
      simpa using ih m fnd
    | false =>
      cases hf : toFloat64 v with
      | none =>
        have hcs : csOf (v :: t) = csOf t := by simp [csOf, hna, hf]
        simp only [List.foldl_cons, SeriesV.minStep, hna, hf, hcs]
        simpa using ih m fnd
      | some f =>
        have hcs : csOf (v :: t) = f :: csOf t := by simp [csOf, hna, hf]
        have hstep : SeriesV.minStep (m, fnd) v = if f < m then (f, true) else (m, fnd) := by
          simp [SeriesV.minStep, hna, hf]
        rw [List.foldl_cons, hstep, hcs]
        by_cases hlt : f < m
        · have hmin : min m f = f := min_eq_right hlt.le
          rw [if_pos hlt, ih f true]
          simp [List.foldl_cons, List.any_cons, hmin, hlt]
        · have hmin : min m f = m := min_eq_left (le_of_not_lt hlt)
          rw [if_neg hlt, ih m fnd]
          simp [List.foldl_cons, List.any_cons, hmin, hlt]

theorem maxFold (l : List Value) :
    ∀ (m : ℚ) (fnd : Bool),
      l.foldl SeriesV.maxStep (m, fnd) =
        ((csOf l).foldl max m, fnd || (csOf l).any (fun f => decide (m < f))) := by
  induction l with
  | nil => intro m fnd; simp [csOf]
  | cons v t ih =>
    intro m fnd
    cases hna : IsNA v with
    | true =>
      have hcs : csOf (v :: t) = csOf t := by simp [csOf, hna]
      simp only [List.foldl_cons, SeriesV.maxStep, hna, if_pos rfl, hcs]
      simpa using ih m fnd
    | false =>
      cases hf : toFloat64 v with
      | none =>
        have hcs : csOf (v :: t) = csOf t := by simp [csOf, hna, hf]
        simp only [List.foldl_cons, SeriesV.maxStep, hna, hf, hcs]
        simpa using ih m fnd
      | some f =>
        have hcs : csOf (v :: t) = f :: csOf t := by simp [csOf, hna, hf]
        have hstep : SeriesV.maxStep (m, fnd) v = if m < f then (f, true) else (m, fnd) := by
          simp [SeriesV.maxStep, hna, hf]
        rw [List.foldl_cons, hstep, hcs]
        by_cases hlt : m < f
        · have hmax : max m f = f := max_eq_right hlt.le
          rw [if_pos hlt, ih f true]
          simp [List.foldl_cons, List.any_cons, hmax, hlt]
        · have hmax : max m f = m := max_eq_left (le_of_not_lt hlt)
          rw [if_neg hlt, ih m fnd]
          simp [List.foldl_cons, List.any_cons, hmax, hlt]

theorem foldl_min_mem (cs : List ℚ) : ∀ m : ℚ, cs.foldl min m = m ∨ cs.foldl min m ∈ cs := by
  induction cs with
  | nil => intro m; exact .inl rfl
  | cons a t ih =>
    intro m
    rcases ih (min m a) with h | h
    · rcases le_total m a with hma | ham
      · exact .inl (by rw [List.foldl_cons, h]; exact min_eq_left hma)
      · exact .inr (by rw [List.foldl_cons, h, min_eq_right ham]; exact List.mem_cons_self a t)
    · exact .inr (List.mem_cons_of_mem a h)

theorem foldl_min_le (cs : List ℚ) : ∀ m : ℚ, cs.foldl min m ≤ m ∧ ∀ f ∈ cs, cs.foldl min m ≤ f := by
  induction cs with
  | nil => intro m; exact ⟨le_refl m, by simp⟩
  | cons a t ih =>
    intro m
    obtain ⟨h1, h2⟩ := ih (min m a)
    refine ⟨le_trans h1 (min_le_left m a), ?_⟩
    intro f hf
    rcases List.mem_cons.mp hf with rfl | hft
    · exact le_trans h1 (min_le_right m f)
    · exact h2 f hft

theorem foldl_max_mem (cs : List ℚ) : ∀ m : ℚ, cs.foldl max m = m ∨ cs.foldl max m ∈ cs := by
  induction cs with
  | nil => intro m; exact .inl rfl
  | cons a t ih =>
    intro m
    rcases ih (max m a) with h | h
    · rcases le_total a m with ham | hma
      · exact .inl (by rw [List.foldl_cons, h]; exact max_eq_left ham)
      · exact .inr (by rw [List.foldl_cons, h, max_eq_right hma]; exact List.mem_cons_self a t)
    · exact .inr (List.mem_cons_of_mem a h)

theorem foldl_max_ge (cs : List ℚ) : ∀ m : ℚ, m ≤ cs.foldl max m ∧ ∀ f ∈ cs, f ≤ cs.foldl max m := by
  induction cs with
  | nil => intro m; exact ⟨le_refl m, by simp⟩
  | cons a t ih =>
    intro m
    obtain ⟨h1, h2⟩ := ih (max m a)
    refine ⟨le_trans (le_max_left m a) h1, ?_⟩
    intro f hf
    rcases List.mem_cons.mp hf with rfl | hft
    · exact le_trans (le_max_right m f) h1
    · exact h2 f hft

end Datago

namespace Datago

/-! ## C7 — Series.Min / Series.Max -/

/-- C7 counterexample: `Min` (resp. `Max`) folds with the sentinel
`math.MaxFloat64` (resp. `-MaxFloat64`) and a strict comparison, so a
series whose only cell is exactly the sentinel value — a perfectly
coercible, non-NA float64 — yields NA, contradicting "returns the minimum
… whenever at least one cell is numerically coercible, and returns NA
exactly when no cell of v is numerically coercible". -/
theorem claim_C7_counterexample :
    (SeriesV.mk' [Value.vfloat maxFloat64Q] "s").minV = Value.vnil ∧
    (SeriesV.mk' [Value.vfloat (-maxFloat64Q)] "t").maxV = Value.vnil ∧
    IsNA (Value.vfloat maxFloat64Q) = false ∧
    toFloat64 (Value.vfloat maxFloat64Q) = some maxFloat64Q ∧
    IsNA (Value.vfloat (-maxFloat64Q)) = false ∧
    toFloat64 (Value.vfloat (-maxFloat64Q)) = some (-maxFloat64Q) := by
  refine ⟨?_, ?_, rfl, rfl, rfl, rfl⟩
  · simp [SeriesV.minV, SeriesV.minStep, SeriesV.mk', IsNA, toFloat64, lt_irrefl]
  · simp [SeriesV.maxV, SeriesV.maxStep, SeriesV.mk', IsNA, toFloat64, lt_irrefl]

/-- C7 amended: `Min` skips NA cells and returns the minimum of the
numerically coerced cells as a float64 whenever at least one coerced cell
is strictly below `math.MaxFloat64`, and returns NA when no coerced cell is
below that sentinel (in particular when no cell is coercible); dually `Max`
with the `-MaxFloat64` sentinel.  (Every float64 except `MaxFloat64` and
`+Inf` is below the sentinel, so the amendment only carves out the exact
sentinel values that the counterexample exhibits.) -/
theorem claim_C7_min_max_amended (s : SeriesV) :
    ((∃ f ∈ s.coercibles, f < maxFloat64Q) →
      ∃ m, s.minV = Value.vfloat m ∧ m ∈ s.coercibles ∧ ∀ f ∈ s.coercibles, m ≤ f) ∧
    ((∀ f ∈ s.coercibles, ¬ f < maxFloat64Q) → s.minV = Value.vnil) ∧
    ((∃ f ∈ s.coercibles, -maxFloat64Q < f) →
      ∃ m, s.maxV = Value.vfloat m ∧ m ∈ s.coercibles ∧ ∀ f ∈ s.coercibles, f ≤ m) ∧
    ((∀ f ∈ s.coercibles, ¬ -maxFloat64Q < f) → s.maxV = Value.vnil) := by
  have hmin : s.minV =
      if (csOf s.data).any (fun f => decide (f < maxFloat64Q)) then
        Value.vfloat ((csOf s.data).foldl min maxFloat64Q) else Value.vnil := by
    simp [SeriesV.minV, minFold s.data maxFloat64Q false]
  have hmax : s.maxV =
      if (csOf s.data).any (fun f => decide (-maxFloat64Q < f)) then
        Value.vfloat ((csOf s.data).foldl max (-maxFloat64Q)) else Value.vnil := by
    simp [SeriesV.maxV, maxFold s.data (-maxFloat64Q) false]
  rw [coercibles_eq]
  refine ⟨?_, ?_, ?_, ?_⟩
  · intro h
    have hany : (csOf s.data).any (fun f => decide (f < maxFloat64Q)) = true := by
      obtain ⟨f, hf, hflt⟩ := h
      exact List.any_eq_true.mpr ⟨f, hf, by simpa using hflt⟩
    refine ⟨(csOf s.data).foldl min maxFloat64Q, by rw [hmin, if_pos hany], ?_,
      (foldl_min_le (csOf s.data) maxFloat64Q).2⟩
    rcases foldl_min_mem (csOf s.data) maxFloat64Q with he | hmem
    · obtain ⟨f, hf, hflt⟩ := h
      have := (foldl_min_le (csOf s.data) maxFloat64Q).2 f hf
      rw [he] at this
      exact absurd (lt_of_le_of_lt this hflt) (lt_irrefl _)
    · exact hmem
  · intro h
    have hany : (csOf s.data).any (fun f => decide (f < maxFloat64Q)) = false := by
      rw [List.any_eq_false]
      intro f hf
      simpa using h f hf
    rw [hmin, if_neg (by simp [hany])]
  · intro h
    have hany : (csOf s.data).any (fun f => decide (-maxFloat64Q < f)) = true := by
      obtain ⟨f, hf, hflt⟩ := h
      exact List.any_eq_true.mpr ⟨f, hf, by simpa using hflt⟩
    refine ⟨(csOf s.data).foldl max (-maxFloat64Q), by rw [hmax, if_pos hany], ?_,
      (foldl_max_ge (csOf s.data) (-maxFloat64Q)).2⟩
    rcases foldl_max_mem (csOf s.data) (-maxFloat64Q) with he | hmem
    · obtain ⟨f, hf, hflt⟩ := h
      have := (foldl_max_ge (csOf s.data) (-maxFloat64Q)).2 f hf
      rw [he] at this
      exact absurd (lt_of_lt_of_le hflt this) (lt_irrefl _)
    · exact hmem
  · intro h
    have hany : (csOf s.data).any (fun f => decide (-maxFloat64Q < f)) = false := by
      rw [List.any_eq_false]
      intro f hf
      simpa using h f hf
    rw [hmax, if_neg (by simp [hany])]

/-- Witness for C7's amended theorem at a concrete mixed series: NA, an
int64 cell, a non-numeric string and an int cell. -/
theorem claim_C7_min_max_amended_witness :
    (∃ f ∈ (SeriesV.mk' [Value.vnil, Value.vint64 5, Value.vstr "abc", Value.vint 2] "w").coercibles,
        f < maxFloat64Q) ∧
    (∃ m, (SeriesV.mk' [Value.vnil, Value.vint64 5, Value.vstr "abc", Value.vint 2] "w").minV =
        Value.vfloat m ∧
      m ∈ (SeriesV.mk' [Value.vnil, Value.vint64 5, Value.vstr "abc", Value.vint 2] "w").coercibles ∧
      ∀ f ∈ (SeriesV.mk' [Value.vnil, Value.vint64 5, Value.vstr "abc", Value.vint 2] "w").coercibles,
        m ≤ f) := by
  have h : ∃ f ∈ (SeriesV.mk' [Value.vnil, Value.vint64 5, Value.vstr "abc",
      Value.vint 2] "w").coercibles, f < maxFloat64Q := by decide
  exact ⟨h, (claim_C7_min_max_amended _).1 h⟩

end Datago

namespace Datago

/-! ## C6 — construction-time length checking -/

/-- C6: `New` treats `rowCount == 0` as "not yet set", so a zero-length
column placed before the first nonzero-length column by Go's randomised
map iteration is never length-checked: `New({"a": [], "b": [1]})` iterated
`a` first succeeds and builds a frame whose column `a` has 0 cells while
column `b` has 1 cell and the shape reports 1 row — no length-mismatch
error, and a frame with columns of differing lengths IS constructed.  The
same input iterated `b` first does error, so the constructor's outcome
depends on map iteration order.  This contradicts the constructor's own
mismatch check and error message, which clearly intend to reject all
unequal lengths. -/
theorem claim_C6_new_zero_length_slip :
    ((NewV [("a", []), ("b", [Value.vint64 1])]).toOption.map fun F =>
      (F.shape, (F.data "a").map (fun s => s.data.length),
        (F.data "b").map (fun s => s.data.length), F.columns)) =
      some ((1, 2), some 0, some 1, ["a", "b"]) ∧
    (NewV [("b", [Value.vint64 1]), ("a", [])]).toOption = none := by
  exact ⟨rfl, rfl⟩

/-! ## C8 — label selection (`Loc`) -/

/-- Concrete one-column frame used by the C8 counterexample. -/
def dfC8 : DataFrameV :=
  { columns := ["a"]
    data := fun c => if c = "a" then some (SeriesV.mk' [Value.vint64 1] "a") else none
    index := IndexV.range 1
    shape := (1, 1) }

/-- C8 counterexample: `Loc` does NOT drop unknown column names from the
result's ordered column list — it copies the requested list verbatim (and
counts it in the shape), merely omitting a backing vector for the unknown
name.  Selecting columns `["a","zz"]` from a frame that only has `a`
yields a result whose column list still contains `zz` with no backing
series, refuting "the result's ordered column-name list contains only
columns that exist in F" and "every listed column has a backing vector". -/
theorem claim_C8_counterexample :
    (dfC8.locV .all (.list ["a", "zz"])).columns = ["a", "zz"] ∧
    (dfC8.locV .all (.list ["a", "zz"])).data "zz" = none ∧
    (dfC8.locV .all (.list ["a", "zz"])).shape = (1, 2) ∧
    ("zz" ∈ dfC8.columns) = False := by
  refine ⟨rfl, ?_, rfl, by simp [dfC8]⟩
  simp [DataFrameV.locV, dfC8]

/-- C8 amended: `Loc` is total (label-resolution failures never propagate
as errors): unknown row labels are silently skipped (only labels that
resolve through `GetLoc` contribute a row), while the requested column
names are kept verbatim as the result's ordered column list — unknown
names are retained in the list and counted in the shape but receive no
backing vector; known names are backed by the selected cells over the
selected labels. -/
theorem claim_C8_loc_amended (df : DataFrameV) (ls : List Value) (cs : List String) :
    (df.locV (.list ls) (.list cs)).columns = cs ∧
    (df.locV (.list ls) (.list cs)).shape = ((ls.filterMap df.index.getLoc).length, cs.length) ∧
    (∀ c, c ∉ cs → (df.locV (.list ls) (.list cs)).data c = none) ∧
    (∀ c ∈ cs, df.data c = none → (df.locV (.list ls) (.list cs)).data c = none) ∧
    (∀ c ∈ cs, ∀ s, df.data c = some s →
      (df.locV (.list ls) (.list cs)).data c = some (SeriesV.mkWithIndex
        ((ls.filterMap df.index.getLoc).map fun p => s.data.getD p Value.vnil) c
        ⟨(ls.filterMap df.index.getLoc).map fun p => df.index.labels.getD p Value.vnil,
          df.index.name⟩)) ∧
    (df.locV (.list ls) (.list cs)).index.labels =
      (ls.filterMap df.index.getLoc).map (fun p => df.index.labels.getD p Value.vnil) := by
  refine ⟨rfl, rfl, ?_, ?_, ?_, rfl⟩
  · intro c hc
    simp [DataFrameV.locV, hc]
  · intro c hc hnone
    simp [DataFrameV.locV, hc, hnone]
  · intro c hc s hs
    simp [DataFrameV.locV, hc, hs]

end Datago

namespace Datago

/-! ## C10 — view sharing (Head/Tail/Slice): a small heap model

Go slice expressions (`s.data[start:end]`) alias the backing array while
`Index.Slice` copies the labels into a freshly allocated `Index`.  To state
aliasing, series are modelled as references into an explicit heap: a
`SeriesRef` names a backing cell array (`arrId`, with a slice window
`off`/`len`) and an allocated index object (`idxId`). -/

/-- The heap: backing cell arrays and allocated Index objects. -/
structure Heap where
  arrays : List (List Value)
  indexes : List IndexV

/-- A `*Series` as a reference: slice window into a backing array plus a
pointer to an index object. -/
structure SeriesRef where
  name : String
  arrId : Nat
  off : Nat
  len : Nat
  dtype : DType
  idxId : Nat

/-- `Series.Get(pos)` through the heap. -/
def getH (h : Heap) (s : SeriesRef) (pos : Nat) : Option Value :=
  if pos < s.len then (h.arrays.get? s.arrId).bind fun arr => arr.get? (s.off + pos)
  else none

/-- `Series.Set(pos, v)`: in-place write into the (possibly shared) backing
array; out-of-range returns an error and changes nothing. -/
def setH (h : Heap) (s : SeriesRef) (pos : Nat) (v : Value) : Heap :=
  if pos < s.len then
    { h with arrays := h.arrays.set s.arrId ((h.arrays.getD s.arrId []).set (s.off + pos) v) }
  else h

/-- `Series.Slice(start,end)` (series.go): clamp `end` to the data length,
share the backing array at offset `off+start`, and allocate a fresh index
holding a copy of the sliced labels (`Index.Slice` copies). -/
def sliceH (h : Heap) (s : SeriesRef) (start stop : Nat) : Heap × SeriesRef :=
  let stop' := min stop s.len
  let idx := (h.indexes.getD s.idxId ⟨[], ""⟩).sliceV start stop'
  ({ h with indexes := h.indexes ++ [idx] },
   { name := s.name, arrId := s.arrId, off := s.off + start, len := stop' - start,
     dtype := s.dtype, idxId := h.indexes.length })

/-- `Series.Head(n)` = slice of the first `min n len` cells. -/
def headH (h : Heap) (s : SeriesRef) (n : Nat) : Heap × SeriesRef :=
  sliceH h s 0 n

/-- `Series.Tail(n)` = slice of the last `min n len` cells. -/
def tailH (h : Heap) (s : SeriesRef) (n : Nat) : Heap × SeriesRef :=
  sliceH h s (s.len - min n s.len) s.len

/-- `Index.SetName` applied through a series' index pointer: mutates the
pointed-to index object in place. -/
def idxSetNameH (h : Heap) (s : SeriesRef) (nm : String) : Heap :=
  { h with
    indexes := h.indexes.set s.idxId
      { (h.indexes.getD s.idxId ⟨[], ""⟩) with name := nm } }

/-- The index object a series currently points to. -/
def indexOfH (h : Heap) (s : SeriesRef) : Option IndexV := h.indexes.get? s.idxId

theorem lset_get?_self {α : Type _} :
    ∀ (l : List α) (i : Nat) (x : α), i < l.length → (l.set i x).get? i = some x := by
  intro l
  induction l with
  | nil => intro i x h; exact absurd h (by simp)
  | cons a t ih =>
    intro i x h
    match i with
    | 0 => rfl
    | j + 1 => exact ih j x (by simpa using h)

theorem lset_get?_ne {α : Type _} :
    ∀ (l : List α) (i j : Nat) (x : α), i ≠ j → (l.set i x).get? j = l.get? j := by
  intro l
  induction l with
  | nil => intro i j x _; simp
  | cons a t ih =>
    intro i j x hne
    match i, j with
    | 0, 0 => exact absurd rfl hne
    | 0, k + 1 => rfl
    | m + 1, 0 => rfl
    | m + 1, k + 1 => exact ih m k x (by omega)

end Datago

namespace Datago

/-- C10: for a series `s` (backed by array `arr` with window `off`/`len` and
index object `idxId`) and in-range slice bounds `a ≤ b ≤ len`, the view
`t = s.Slice(a, b)` shares the parent's cell storage — a `Set` through `t`
is visible through `s` at the corresponding position and a `Set` through
`s` inside `[a,b)` is visible through `t` — while `t` owns a freshly
allocated index holding a copy of the parent's label range, so mutating
either series' index (here: `SetName`) never affects the other's.  `Head`
and `Tail` build the same kind of view (`Head n = Slice 0 n`,
`Tail n = Slice (len−min n len) len`). -/
theorem claim_C10_slice_shares_cells_owns_index
    (h : Heap) (s : SeriesRef) (arr : List Value)
    (harr : h.arrays.get? s.arrId = some arr)
    (hlen : s.off + s.len ≤ arr.length)
    (hidx : s.idxId < h.indexes.length)
    (a b : Nat) (hab : a ≤ b) (hb : b ≤ s.len) :
    (sliceH h s a b).2.arrId = s.arrId ∧
    (sliceH h s a b).2.off = s.off + a ∧
    (sliceH h s a b).2.len = b - a ∧
    (∀ (pos : Nat) (v : Value), pos < b - a →
      getH (setH (sliceH h s a b).1 (sliceH h s a b).2 pos v) s (a + pos) = some v) ∧
    (∀ (p : Nat) (v : Value), a ≤ p → p < b →
      getH (setH (sliceH h s a b).1 s p v) (sliceH h s a b).2 (p - a) = some v) ∧
    (sliceH h s a b).2.idxId ≠ s.idxId ∧
    indexOfH (sliceH h s a b).1 (sliceH h s a b).2 =
      some ((h.indexes.getD s.idxId ⟨[], ""⟩).sliceV a b) ∧
    (∀ nm, indexOfH (idxSetNameH (sliceH h s a b).1 (sliceH h s a b).2 nm) s =
      indexOfH (sliceH h s a b).1 s) ∧
    (∀ nm, indexOfH (idxSetNameH (sliceH h s a b).1 s nm) (sliceH h s a b).2 =
      indexOfH (sliceH h s a b).1 (sliceH h s a b).2) ∧
    indexOfH (sliceH h s a b).1 s = indexOfH h s ∧
    (∀ n, headH h s n = sliceH h s 0 n) ∧
    (∀ n, tailH h s n = sliceH h s (s.len - min n s.len) s.len) := by
  have harrLt : s.arrId < h.arrays.length := by
    by_contra hge
    rw [List.get?_eq_none.mpr (le_of_not_lt hge)] at harr
    exact Option.noConfusion harr
  have hstop : min b s.len = b := min_eq_left hb
  have hIdxFresh : (sliceH h s a b).2.idxId = h.indexes.length := rfl
  have hne : (sliceH h s a b).2.idxId ≠ s.idxId := by
    rw [hIdxFresh]; omega
  have harr' : (sliceH h s a b).1.arrays = h.arrays := rfl
  refine ⟨rfl, rfl, by simp [sliceH, hstop], ?_, ?_, hne, ?_, ?_, ?_, ?_, fun n => rfl, fun n => rfl⟩
  · -- set through the view, read through the parent
    intro pos v hpos
    have hposlen : pos < (sliceH h s a b).2.len := by simpa [sliceH, hstop] using hpos
    have habs : s.off + a + pos < arr.length := by omega
    have hread : a + pos < s.len := by omega
    simp only [setH, if_pos hposlen, getH, if_pos hread, harr']
    have hgetset : ((h.arrays.set s.arrId ((h.arrays.getD s.arrId []).set
        ((sliceH h s a b).2.off + pos) v))).get? s.arrId =
        some (arr.set (s.off + a + pos) v) := by
      have hgd : h.arrays.getD s.arrId [] = arr := by
        have h2 : h.arrays[s.arrId]? = some arr := by
          rw [← List.get?_eq_getElem?]; exact harr
        simp [List.getD, h2]
      rw [show (sliceH h s a b).2.off = s.off + a from rfl, hgd]
      exact lset_get?_self _ _ _ harrLt
    rw [show (sliceH h s a b).2.arrId = s.arrId from rfl, hgetset]
    rw [Option.some_bind]
    have : s.off + (a + pos) = s.off + a + pos := by omega
    rw [this]
    exact lset_get?_self arr _ v habs
  · -- set through the parent, read through the view
    intro p v hap hpb
    have hplen : p < s.len := by omega
    have habs : s.off + p < arr.length := by omega
    have hread : p - a < (sliceH h s a b).2.len := by simp [sliceH, hstop]; omega
    simp only [setH, if_pos hplen, getH, if_pos hread, harr']
    have hgd : h.arrays.getD s.arrId [] = arr := by
      have h2 : h.arrays[s.arrId]? = some arr := by
        rw [← List.get?_eq_getElem?]; exact harr
      simp [List.getD, h2]
    rw [show (sliceH h s a b).2.arrId = s.arrId from rfl, hgd,
      lset_get?_self _ _ _ harrLt]
    rw [Option.some_bind]
    have : (sliceH h s a b).2.off + (p - a) = s.off + p := by
      rw [show (sliceH h s a b).2.off = s.off + a from rfl]; omega
    rw [this]
    exact lset_get?_self arr _ v habs
  · -- the view's freshly allocated index holds the copied label range
    show ((h.indexes ++ [(h.indexes.getD s.idxId ⟨[], ""⟩).sliceV a (min b s.len)]).get?
      h.indexes.length) = _
    rw [hstop, List.get?_concat_length]
  · -- renaming the view's index leaves the parent's index object unchanged
    intro nm
    show ((sliceH h s a b).1.indexes.set (sliceH h s a b).2.idxId _).get? s.idxId = _
    exact lset_get?_ne _ _ _ _ hne
  · -- renaming the parent's index leaves the view's index object unchanged
    intro nm
    show ((sliceH h s a b).1.indexes.set s.idxId _).get? (sliceH h s a b).2.idxId = _
    exact lset_get?_ne _ _ _ _ (Ne.symm hne)
  · -- the slice itself does not touch the parent's index
    show (h.indexes ++ [_]).get? s.idxId = h.indexes.get? s.idxId
    exact List.get?_append hidx

/-- Witness for C10 at a concrete three-cell series sliced to `[1,3)`. -/
theorem claim_C10_slice_shares_cells_owns_index_witness :
    (0 : Nat) ≤ 3 ∧
    (let h : Heap := ⟨[[Value.vint64 10, Value.vint64 20, Value.vint64 30]],
        [⟨[Value.vint 0, Value.vint 1, Value.vint 2], ""⟩]⟩
     let s : SeriesRef := ⟨"s", 0, 0, 3, .int64, 0⟩
     (sliceH h s 1 3).2.arrId = s.arrId ∧
     (sliceH h s 1 3).2.off = s.off + 1 ∧
     (sliceH h s 1 3).2.len = 3 - 1 ∧
     (∀ (pos : Nat) (v : Value), pos < 3 - 1 →
       getH (setH (sliceH h s 1 3).1 (sliceH h s 1 3).2 pos v) s (1 + pos) = some v) ∧
     (∀ (p : Nat) (v : Value), 1 ≤ p → p < 3 →
       getH (setH (sliceH h s 1 3).1 s p v) (sliceH h s 1 3).2 (p - 1) = some v) ∧
     (sliceH h s 1 3).2.idxId ≠ s.idxId ∧
     indexOfH (sliceH h s 1 3).1 (sliceH h s 1 3).2 =
       some ((h.indexes.getD s.idxId ⟨[], ""⟩).sliceV 1 3) ∧
     (∀ nm, indexOfH (idxSetNameH (sliceH h s 1 3).1 (sliceH h s 1 3).2 nm) s =
       indexOfH (sliceH h s 1 3).1 s) ∧
     (∀ nm, indexOfH (idxSetNameH (sliceH h s 1 3).1 s nm) (sliceH h s 1 3).2 =
       indexOfH (sliceH h s 1 3).1 (sliceH h s 1 3).2) ∧
     indexOfH (sliceH h s 1 3).1 s = indexOfH h s ∧
     (∀ n, headH h s n = sliceH h s 0 n) ∧
     (∀ n, tailH h s n = sliceH h s (s.len - min n s.len) s.len)) := by
  refine ⟨by decide, ?_⟩
  exact claim_C10_slice_shares_cells_owns_index
    ⟨[[Value.vint64 10, Value.vint64 20, Value.vint64 30]],
      [⟨[Value.vint 0, Value.vint 1, Value.vint 2], ""⟩]⟩
    ⟨"s", 0, 0, 3, .int64, 0⟩
    [Value.vint64 10, Value.vint64 20, Value.vint64 30]
    rfl (by decide) (by decide) 1 3 (by decide) (by decide)

end Datago

namespace Datago

/-! ## C1 — ParallelFilter vs Filter -/

theorem pfChunk_tiling (df : DataFrameV) (fn : RowV → Bool) (cs n : Nat) :
    ∀ k, (List.range k).flatMap (pfChunk df fn cs n) =
      (List.range' 0 (min (k * cs) n)).filter (fun i => fn (df.rowOf i)) := by
  intro k
  induction k with
  | zero => simp
  | succ k ih =>
    rw [List.range_succ, List.flatMap_append, ih]
    by_cases hk : k * cs ≥ n
    · have h1 : min (k * cs) n = n := min_eq_right hk
      have h2 : min ((k + 1) * cs) n = n := min_eq_right (le_trans hk (by
        have : k * cs ≤ (k + 1) * cs := Nat.mul_le_mul_right cs (Nat.le_succ k)
        omega))
      have hchunk : pfChunk df fn cs n k = [] := by
        simp only [pfChunk]
        rw [if_pos hk]
      simp [hchunk, h1, h2]
    · push_neg at hk
      have h1 : min (k * cs) n = k * cs := min_eq_left (le_of_lt hk)
      have hkcs : k * cs ≤ min (k * cs + cs) n := le_min (Nat.le_add_right _ _) (le_of_lt hk)
      have hchunk : pfChunk df fn cs n k =
          (List.range' (k * cs) (min (k * cs + cs) n - k * cs)).filter
            (fun i => fn (df.rowOf i)) := by
        simp only [pfChunk]
        rw [if_neg (by omega)]
      rw [List.flatMap_singleton, hchunk, h1, ← List.filter_append]
      have happ : List.range' 0 (k * cs) ++ List.range' (k * cs) (min (k * cs + cs) n - k * cs) =
          List.range' 0 (min (k * cs + cs) n) := by
        have := List.range'_append 0 (k * cs) (min (k * cs + cs) n - k * cs) 1
        simp only [one_mul, Nat.zero_add] at this
        rw [this]
        congr 1
        omega
      rw [happ]
      congr 2
      rw [Nat.succ_mul]

theorem ceil_div_mul_ge (n w : Nat) (hw : 0 < w) : n ≤ w * ((n + w - 1) / w) := by
  have hdm := Nat.div_add_mod (n + w - 1) w
  have hmlt : (n + w - 1) % w < w := Nat.mod_lt _ hw
  omega

theorem filterMap_getLoc_roundtrip (idx : IndexV) (hnd : idx.labels.Nodup) :
    ∀ rows : List Nat, (∀ p ∈ rows, p < idx.labels.length) →
      (rows.map (fun p => idx.labels.getD p Value.vnil)).filterMap idx.getLoc = rows := by
  intro rows
  induction rows with
  | nil => intro _; rfl
  | cons p t ih =>
    intro hb
    have hp : p < idx.labels.length := hb p (List.mem_cons_self p t)
    have hgd : idx.labels.getD p Value.vnil = idx.labels.get ⟨p, hp⟩ := by
      rw [List.getD_eq_getElem idx.labels Value.vnil hp]
      rfl
    rw [List.map_cons, List.filterMap_cons, hgd, getLoc_roundtrip hnd hp]
    rw [ih fun q hq => hb q (List.mem_cons_of_mem p hq)]

/-- Concrete frame and predicate for the C1 counterexample. -/
def dfC1 : DataFrameV :=
  { columns := ["v"]
    data := fun c =>
      if c = "v" then some (SeriesV.mk' [Value.vint64 10, Value.vint64 20, Value.vint64 30] "v")
      else none
    index := IndexV.range 3
    shape := (3, 1) }

/-- The C1 predicate: keep rows whose `v` cell is `int64 30` (row 2 only). -/
def fnC1 : RowV → Bool := fun row => decide (row "v" = Value.vint64 30)

/-- C1 counterexample: with `NumWorkers = 2` forced, `ParallelFilter` keeps
the same cells as `Filter` but rebuilds the result on a FRESH RANGE index
(`NewSeries` + `NewRangeIndex`), whereas the sequential `Filter` carries
over the surviving rows' original labels; on a 3-row frame keeping only
row 2 the parallel result's index label is `0` while the sequential one's
is `2`, so the two frames differ and the claim's "same row-label index"
(hence the blanket parallel/serial equivalence) fails. -/
theorem claim_C1_counterexample :
    (dfC1.parallelFilterV fnC1 ⟨2, 1000⟩ 1).index.labels = [Value.vint 0] ∧
    (dfC1.filterV fnC1).index.labels = [Value.vint 2] ∧
    (dfC1.parallelFilterV fnC1 ⟨2, 1000⟩ 1).index ≠ (dfC1.filterV fnC1).index ∧
    (dfC1.parallelFilterV fnC1 ⟨2, 1000⟩ 1).cell "v" 0 = some (Value.vint64 30) ∧
    (dfC1.filterV fnC1).cell "v" 0 = some (Value.vint64 30) ∧
    (dfC1.parallelFilterV fnC1 ⟨2, 1000⟩ 1).columns = (dfC1.filterV fnC1).columns := by
  refine ⟨rfl, rfl, ?_, rfl, rfl, rfl⟩
  intro h
  have hlab := congrArg IndexV.labels h
  rw [show (dfC1.parallelFilterV fnC1 ⟨2, 1000⟩ 1).index.labels = [Value.vint 0] from rfl,
    show (dfC1.filterV fnC1).index.labels = [Value.vint 2] from rfl] at hlab
  exact absurd hlab (by decide)

end Datago

namespace Datago

theorem locV_list_all_char (df : DataFrameV) (ls : List Value) :
    (df.locV (.list ls) .all).columns = df.columns ∧
    (df.locV (.list ls) .all).shape =
      ((ls.filterMap df.index.getLoc).length, df.columns.length) ∧
    (df.locV (.list ls) .all).index.labels =
      (ls.filterMap df.index.getLoc).map (fun p => df.index.labels.getD p Value.vnil) ∧
    (∀ c, c ∉ df.columns → (df.locV (.list ls) .all).data c = none) ∧
    (∀ c ∈ df.columns, (df.locV (.list ls) .all).data c = (df.data c).map fun s =>
      SeriesV.mkWithIndex ((ls.filterMap df.index.getLoc).map fun p => s.data.getD p Value.vnil) c
        ⟨(ls.filterMap df.index.getLoc).map fun p => df.index.labels.getD p Value.vnil,
          df.index.name⟩) := by
  refine ⟨rfl, rfl, rfl, ?_, ?_⟩
  · intro c hc
    simp [DataFrameV.locV, hc]
  · intro c hc
    simp [DataFrameV.locV, hc]

theorem filterV_char (df : DataFrameV) (fn : RowV → Bool)
    (hwf : df.wf) (hnd : df.index.labels.Nodup) :
    (df.filterV fn).columns = df.columns ∧
    (df.filterV fn).shape =
      (((List.range df.shape.1).filter (fun i => fn (df.rowOf i))).length, df.columns.length) ∧
    (df.filterV fn).index.labels =
      ((List.range df.shape.1).filter (fun i => fn (df.rowOf i))).map
        (fun p => df.index.labels.getD p Value.vnil) ∧
    (∀ c, c ∉ df.columns → (df.filterV fn).data c = none) ∧
    (∀ c ∈ df.columns, (df.filterV fn).data c = (df.data c).map fun s =>
      SeriesV.mkWithIndex
        (((List.range df.shape.1).filter (fun i => fn (df.rowOf i))).map
          (fun p => s.data.getD p Value.vnil)) c
        ⟨((List.range df.shape.1).filter (fun i => fn (df.rowOf i))).map
          (fun p => df.index.labels.getD p Value.vnil), df.index.name⟩) := by
  have hbnd : ∀ p ∈ (List.range df.shape.1).filter (fun i => fn (df.rowOf i)),
      p < df.index.labels.length := by
    intro p hp
    have h1 := List.mem_range.mp (List.mem_of_mem_filter hp)
    have h2 := hwf.2.1
    omega
  have hrp := filterMap_getLoc_roundtrip df.index hnd
    ((List.range df.shape.1).filter (fun i => fn (df.rowOf i))) hbnd
  have hfil : df.filterV fn = df.locV
      (.list (((List.range df.shape.1).filter (fun i => fn (df.rowOf i))).map
        (fun p => df.index.labels.getD p Value.vnil))) .all := rfl
  obtain ⟨h1, h2, h3, h4, h5⟩ := locV_list_all_char df
    (((List.range df.shape.1).filter (fun i => fn (df.rowOf i))).map
      (fun p => df.index.labels.getD p Value.vnil))
  rw [hrp] at h2 h3 h5
  exact ⟨hfil ▸ h1, hfil ▸ h2, hfil ▸ h3, hfil ▸ h4, hfil ▸ h5⟩

end Datago

namespace Datago

theorem parallelFilterV_char (df : DataFrameV) (fn : RowV → Bool)
    (opts : ParallelOptionsV) (numCPU : Nat)
    (hn : 0 < df.shape.1) (hw : 1 < getNumWorkersV opts numCPU df.shape.1) :
    (df.parallelFilterV fn opts numCPU).columns = df.columns ∧
    (df.parallelFilterV fn opts numCPU).shape =
      (((List.range df.shape.1).filter (fun i => fn (df.rowOf i))).length, df.columns.length) ∧
    (df.parallelFilterV fn opts numCPU).index =
      IndexV.range ((List.range df.shape.1).filter (fun i => fn (df.rowOf i))).length ∧
    (∀ c, c ∉ df.columns → (df.parallelFilterV fn opts numCPU).data c = none) ∧
    ((List.range df.shape.1).filter (fun i => fn (df.rowOf i)) = [] →
      ∀ c, (df.parallelFilterV fn opts numCPU).data c = none) ∧
    ((List.range df.shape.1).filter (fun i => fn (df.rowOf i)) ≠ [] →
      ∀ c ∈ df.columns, (df.parallelFilterV fn opts numCPU).data c =
        (df.data c).map fun s => SeriesV.mk'
          (((List.range df.shape.1).filter (fun i => fn (df.rowOf i))).map
            (fun p => s.data.getD p Value.vnil)) c) := by
  have hne : ¬ df.shape.1 = 0 := by omega
  have hnw : ¬ getNumWorkersV opts numCPU df.shape.1 ≤ 1 := by omega
  have hAll : (List.range (getNumWorkersV opts numCPU df.shape.1)).flatMap
      (pfChunk df fn
        ((df.shape.1 + getNumWorkersV opts numCPU df.shape.1 - 1) /
          getNumWorkersV opts numCPU df.shape.1) df.shape.1) =
      (List.range df.shape.1).filter (fun i => fn (df.rowOf i)) := by
    rw [pfChunk_tiling]
    have hmul := ceil_div_mul_ge df.shape.1 (getNumWorkersV opts numCPU df.shape.1) (by omega)
    rw [min_eq_right hmul]
    rw [← List.range_eq_range']
  have hP : df.parallelFilterV fn opts numCPU =
      (if ((List.range df.shape.1).filter (fun i => fn (df.rowOf i))).isEmpty then
        { columns := df.columns, data := fun _ => none,
          index := IndexV.range 0, shape := (0, df.columns.length) }
      else
        { columns := df.columns
          data := fun c =>
            if c ∈ df.columns then
              (df.data c).map fun s =>
                SeriesV.mk' (((List.range df.shape.1).filter (fun i => fn (df.rowOf i))).map
                  fun i => s.data.getD i Value.vnil) c
            else none
          index := IndexV.range ((List.range df.shape.1).filter (fun i => fn (df.rowOf i))).length
          shape := (((List.range df.shape.1).filter (fun i => fn (df.rowOf i))).length,
            df.columns.length) } : DataFrameV) := by
    rw [DataFrameV.parallelFilterV]
    rw [if_neg hne, if_neg hnw]
    simp only [hAll]
  by_cases hrows : (List.range df.shape.1).filter (fun i => fn (df.rowOf i)) = []
  · have hemp : ((List.range df.shape.1).filter (fun i => fn (df.rowOf i))).isEmpty = true := by
      rw [hrows]; rfl
    rw [hP, if_pos hemp]
    refine ⟨rfl, ?_, ?_, fun c _ => rfl, fun _ c => rfl, fun hne' => absurd hrows hne'⟩
    · rw [hrows]; rfl
    · rw [hrows]; rfl
  · have hemp : ((List.range df.shape.1).filter (fun i => fn (df.rowOf i))).isEmpty = false := by
      rw [List.isEmpty_eq_false_iff_exists_mem]
      rcases List.exists_mem_of_ne_nil _ hrows with ⟨x, hx⟩
      exact ⟨x, hx⟩
    rw [hP, if_neg (by rw [hemp]; exact Bool.false_ne_true)]
    refine ⟨rfl, rfl, rfl, ?_, fun he => absurd he hrows, ?_⟩
    · intro c hc
      simp [hc]
    · intro _ c hc
      simp [hc]

end Datago

namespace Datago

/-- C1 amended: for every well-formed frame with pairwise-distinct row
labels, every predicate and every parallel option setting, `ParallelFilter`
agrees with the sequential `Filter` on the column list, the shape and every
cell — but NOT on the row-label index: whenever the parallel path is
actually taken, `ParallelFilter` returns a fresh range index `0..k-1`
(its series are rebuilt with `NewSeries`), whereas `Filter` carries over
the surviving rows' original labels.  (With duplicate row labels even the
cells can differ, because `Filter` re-selects rows through their labels;
hence the distinct-labels hypothesis.)  The blanket "every non-floating-
point parallel primitive equals its sequential counterpart" therefore
fails exactly on the row-label index, as the counterexample shows. -/
theorem claim_C1_parallel_filter_amended (df : DataFrameV) (fn : RowV → Bool)
    (opts : ParallelOptionsV) (numCPU : Nat)
    (hwf : df.wf) (hnd : df.index.labels.Nodup) :
    (df.parallelFilterV fn opts numCPU).columns = (df.filterV fn).columns ∧
    (df.parallelFilterV fn opts numCPU).shape = (df.filterV fn).shape ∧
    (∀ c i, (df.parallelFilterV fn opts numCPU).cell c i = (df.filterV fn).cell c i) ∧
    (0 < df.shape.1 → 1 < getNumWorkersV opts numCPU df.shape.1 →
      (df.parallelFilterV fn opts numCPU).index =
        IndexV.range ((List.range df.shape.1).filter (fun i => fn (df.rowOf i))).length ∧
      (df.filterV fn).index.labels =
        ((List.range df.shape.1).filter (fun i => fn (df.rowOf i))).map
          (fun p => df.index.labels.getD p Value.vnil)) := by
  obtain ⟨hS1, hS2, hS3, hS4, hS5⟩ := filterV_char df fn hwf hnd
  by_cases hn : df.shape.1 = 0
  · have hP : df.parallelFilterV fn opts numCPU = df.copyV := by
      rw [DataFrameV.parallelFilterV, if_pos hn]
    have hrows : (List.range df.shape.1).filter (fun i => fn (df.rowOf i)) = [] := by
      rw [hn]; rfl
    refine ⟨?_, ?_, ?_, fun h0 _ => absurd h0 (by omega)⟩
    · rw [hP, hS1]; rfl
    · rw [hP, hS2, hrows]
      show df.shape = (0, df.columns.length)
      have h2 := hwf.2.2
      have hprod : df.shape = (df.shape.1, df.shape.2) := rfl
      rw [hprod, hn, h2]
    · intro c i
      by_cases hc : c ∈ df.columns
      · obtain ⟨s, hs, hslen⟩ := hwf.1 c hc
        have hsdata : s.data = [] := List.length_eq_zero.mp (by rw [hslen, hn])
        have hScell : (df.filterV fn).cell c i = none := by
          simp only [DataFrameV.cell, hS5 c hc, hs, Option.map_some, Option.some_bind]
          rw [hrows]
          simp [SeriesV.mkWithIndex]
        rw [hScell, hP]
        simp only [DataFrameV.cell, DataFrameV.copyV, if_pos hc, hs, Option.some_bind]
        rw [hsdata]
        simp
      · have h1 : (df.copyV).data c = none := by
          simp [DataFrameV.copyV, hc]
        rw [hP]
        simp [DataFrameV.cell, h1, hS4 c hc]
  · by_cases hw : getNumWorkersV opts numCPU df.shape.1 ≤ 1
    · have hPS : df.parallelFilterV fn opts numCPU = df.filterV fn := by
        rw [DataFrameV.parallelFilterV, if_neg hn, if_pos hw]
      refine ⟨by rw [hPS], by rw [hPS], fun c i => by rw [hPS], fun _ hlt => absurd hlt (by omega)⟩
    · obtain ⟨hP1, hP2, hP3, hP4, hP5, hP6⟩ :=
        parallelFilterV_char df fn opts numCPU (by omega) (by omega)
      refine ⟨by rw [hP1, hS1], by rw [hP2, hS2], ?_, fun _ _ => ⟨hP3, hS3⟩⟩
      intro c i
      by_cases hc : c ∈ df.columns
      · obtain ⟨s, hs, _⟩ := hwf.1 c hc
        by_cases hrows : (List.range df.shape.1).filter (fun i => fn (df.rowOf i)) = []
        · have hScell : (df.filterV fn).cell c i = none := by
            simp only [DataFrameV.cell, hS5 c hc, hs, Option.map_some, Option.some_bind]
            rw [hrows]
            simp [SeriesV.mkWithIndex]
          rw [hScell]
          simp [DataFrameV.cell, hP5 hrows c]
        · have hPcell := hP6 hrows c hc
          simp only [DataFrameV.cell, hPcell, hS5 c hc, hs, Option.map_some, Option.some_bind]
          simp [SeriesV.mk', SeriesV.mkWithIndex]
      · simp [DataFrameV.cell, hP4 c hc, hS4 c hc]

/-- Witness for C1's amended theorem at the concrete 3-row frame with
`NumWorkers = 3`, `ChunkSize = 10`, 2 CPUs. -/
theorem claim_C1_parallel_filter_amended_witness :
    (dfC1.parallelFilterV fnC1 ⟨3, 10⟩ 2).columns = (dfC1.filterV fnC1).columns ∧
    (dfC1.parallelFilterV fnC1 ⟨3, 10⟩ 2).shape = (dfC1.filterV fnC1).shape ∧
    (∀ c i, (dfC1.parallelFilterV fnC1 ⟨3, 10⟩ 2).cell c i = (dfC1.filterV fnC1).cell c i) ∧
    (0 < dfC1.shape.1 → 1 < getNumWorkersV ⟨3, 10⟩ 2 dfC1.shape.1 →
      (dfC1.parallelFilterV fnC1 ⟨3, 10⟩ 2).index =
        IndexV.range ((List.range dfC1.shape.1).filter (fun i => fnC1 (dfC1.rowOf i))).length ∧
      (dfC1.filterV fnC1).index.labels =
        ((List.range dfC1.shape.1).filter (fun i => fnC1 (dfC1.rowOf i))).map
          (fun p => dfC1.index.labels.getD p Value.vnil)) := by
  have hwf : dfC1.wf := by
    refine ⟨?_, rfl, rfl⟩
    intro c hc
    have hca : c = "v" := by simpa [dfC1] using hc
    subst hca
    exact ⟨_, rfl, rfl⟩
  have hnd : dfC1.index.labels.Nodup := by decide
  exact claim_C1_parallel_filter_amended dfC1 fnC1 ⟨3, 10⟩ 2 hwf hnd

end Datago

namespace Datago

/-! ## Group-by (groupby.go, appended in src/io/csv.go) -/

/-- A `GroupBy` value: the grouped frame and the key columns.  The `groups`
map and `keyOrder` slice the constructor builds are recovered as
derived functions below (`groupsOf`, `keyOrder`): the constructor appends
row `i` to `groups[key(i)]` in ascending row order and appends each key to
`keyOrder` at its first appearance, which is exactly what the derived
forms compute. -/
structure GroupByV where
  df : DataFrameV
  byKeys : List String

/-- `buildGroupKey(rowIdx)`: null-separated concatenation of the canonical
renderings of the key cells (a `Get` error leaves the cell nil). -/
def buildGroupKeyV (df : DataFrameV) (byKeys : List String) (rowIdx : Nat) : String :=
  String.intercalate "\x00" (byKeys.map fun col =>
    render (match df.data col with
      | some s => s.data.getD rowIdx Value.vnil
      | none => Value.vnil))

/-- `df.GroupBy(columns...)`: validate that every key is a column. -/
def DataFrameV.groupByV (df : DataFrameV) (columns : List String) : Except String GroupByV :=
  match columns.find? (fun col => (df.data col).isNone) with
  | some col => .error ("column '" ++ col ++ "' not found")
  | none => .ok ⟨df, columns⟩

namespace GroupByV

/-- The composed key of row `i`. -/
def keyOfRow (gb : GroupByV) (i : Nat) : String :=
  buildGroupKeyV gb.df gb.byKeys i

/-- First-appearance deduplication, as the constructor's `keyOrder` append. -/
def firstOccur (l : List String) : List String :=
  l.foldl (fun acc k => if k ∈ acc then acc else acc ++ [k]) []

/-- `gb.keyOrder`: composed keys in first-appearance order. -/
def keyOrder (gb : GroupByV) : List String :=
  firstOccur ((List.range gb.df.shape.1).map gb.keyOfRow)

/-- `gb.groups[k]`: the row positions of group `k`, in ascending order. -/
def groupsOf (gb : GroupByV) (k : String) : List Nat :=
  (List.range gb.df.shape.1).filter (fun i => gb.keyOfRow i = k)

/-- `getGroupKeyValues(rowIdx)`: the raw key cells of one row. -/
def getGroupKeyValues (gb : GroupByV) (rowIdx : Nat) : List Value :=
  gb.byKeys.map fun col =>
    match gb.df.data col with
    | some s => s.data.getD rowIdx Value.vnil
    | none => Value.vnil

/-- `getGroupSeries(col, indices)`: the group's cells of one column as a
fresh series. -/
def getGroupSeries (gb : GroupByV) (col : String) (indices : List Nat) : SeriesV :=
  SeriesV.mk' (indices.map fun idx =>
    match gb.df.data col with
    | some s => s.data.getD idx Value.vnil
    | none => Value.vnil) col

/-- The value list `Agg` accumulates for key column `c` (`keyData[c]`): per
group in first-appearance order, the key cell(s) of the group's first row —
one append per occurrence of `c` in `byKeys` (so exactly one when the key
list has no duplicates). -/
def keyColData (gb : GroupByV) (c : String) : List Value :=
  gb.keyOrder.flatMap fun k =>
    ((List.range gb.byKeys.length).filter (fun t => gb.byKeys.get? t = some c)).map fun t =>
      (gb.getGroupKeyValues ((gb.groupsOf k).headD 0)).getD t Value.vnil

/-- The (column, aggregator-position) pairs of an aggregation map. -/
def aggPairs (aggFuncs : List (String × List (SeriesV → Value))) : List (String × Nat) :=
  aggFuncs.flatMap fun e => (List.range e.2.length).map fun i => (e.1, i)

/-- The `"<col>_<i>"` output names (`fmt.Sprintf("%s_%d", col, i)`). -/
def aggColNames (aggFuncs : List (String × List (SeriesV → Value))) : List String :=
  (aggPairs aggFuncs).map fun p => p.1 ++ "_" ++ toString p.2

/-- One entry of the `data` map `Agg` hands to `New`: aggregation columns
`"<col>_<i>"` (assigned after, hence overriding, the key columns, as in
the source's final two copy loops), then key columns. -/
def aggDataLookup (gb : GroupByV) (aggFuncs : List (String × List (SeriesV → Value)))
    (c : String) : Option (List Value) :=
  match (aggPairs aggFuncs).find? (fun p => p.1 ++ "_" ++ toString p.2 = c) with
  | some (col, i) =>
    some (gb.keyOrder.map fun k =>
      (((aggFuncs.find? (·.1 = col)).map (·.2)).getD []).getD i (fun _ => Value.vnil)
        (gb.getGroupSeries col (gb.groupsOf k)))
  | none =>
    if c ∈ gb.byKeys then some (keyColData gb c) else none

/-- `GroupBy.Agg(aggFuncs)`: validate the aggregated columns, then build
the result through `New`.  `aggFuncs` is a Go map (unique keys); `σ` is
the randomised iteration order of the final `data` map (an arrangement of
its key set, i.e. of the key columns and the `"<col>_<i>"` columns). -/
def aggV (gb : GroupByV) (aggFuncs : List (String × List (SeriesV → Value)))
    (σ : List String) : Except String DataFrameV :=
  match aggFuncs.find? (fun e => (gb.df.data e.1).isNone) with
  | some e => .error ("column '" ++ e.1 ++ "' not found")
  | none => NewV (σ.map fun c => (c, (aggDataLookup gb aggFuncs c).getD []))

end GroupByV

end Datago

namespace Datago

/-! ## C3 helper lemmas -/

theorem range_filter_getq_singleton {l : List String} (hnd : l.Nodup) :
    ∀ (t : Nat) (c : String), l.get? t = some c →
      (List.range l.length).filter (fun u => l.get? u = some c) = [t] := by
  induction l with
  | nil => intro t c ht; simp at ht
  | cons a r ih =>
    intro t c ht
    rw [List.length_cons, List.range_succ_eq_map, List.filter_cons, List.filter_map]
    match t with
    | 0 =>
      have hac : a = c := by simpa using ht
      rw [if_pos (by simp [hac])]
      have htail : List.filter
          ((fun u => decide ((a :: r).get? u = some c)) ∘ Nat.succ) (List.range r.length) = [] := by
        rw [List.filter_eq_nil_iff]
        intro u _
        simp only [Function.comp, List.get?_cons_succ, decide_eq_true_eq]
        intro he
        exact (List.nodup_cons.mp hnd).1 (by rw [hac]; exact List.get?_mem he)
      rw [htail]
      rfl
    | q + 1 =>
      have hq : r.get? q = some c := by simpa using ht
      have hcr : c ∈ r := List.get?_mem hq
      have hac : ¬ ((a :: r).get? 0 = some c) := by
        simp only [List.get?_cons_zero, Option.some_inj]
        intro he
        exact (List.nodup_cons.mp hnd).1 (he ▸ hcr)
      rw [if_neg (by simpa using hac)]
      rw [List.filter_congr (fun u _ => by
        simp only [Function.comp, List.get?_cons_succ] : ∀ u ∈ List.range r.length,
          ((fun u => decide ((a :: r).get? u = some c)) ∘ Nat.succ) u =
            (fun u => decide (r.get? u = some c)) u)]
      rw [ih (List.nodup_cons.mp hnd).2 q c hq]
      rfl

theorem newRowCount_const {L : Nat} :
    ∀ (entries : List (String × List Value)), (∀ e ∈ entries, e.2.length = L) →
      newRowCount entries L = .ok L := by
  intro entries
  induction entries with
  | nil => intro _; rfl
  | cons e t ih =>
    intro h
    have he : e.2.length = L := h e (List.mem_cons_self e t)
    by_cases hL : L = 0
    · subst hL
      simp only [newRowCount, if_pos rfl, he]
      exact ih fun x hx => h x (List.mem_cons_of_mem e hx)
    · show newRowCount (e :: t) L = .ok L
      rw [newRowCount]
      rw [if_neg hL, if_neg (by omega)]
      exact ih fun x hx => h x (List.mem_cons_of_mem e hx)

theorem newRowCount_of_all {L : Nat} (e : String × List Value) (t : List (String × List Value))
    (h : ∀ x ∈ e :: t, x.2.length = L) : newRowCount (e :: t) 0 = .ok L := by
  have he : e.2.length = L := h e (List.mem_cons_self e t)
  rw [newRowCount, if_pos rfl, he]
  exact newRowCount_const t fun x hx => h x (List.mem_cons_of_mem e hx)

theorem find?_map_pair (g : String → List Value) :
    ∀ (σ : List String) (c : String), c ∈ σ →
      (σ.map (fun x => (x, g x))).find? (fun e => e.1 = c) = some (c, g c) := by
  intro σ
  induction σ with
  | nil => intro c hc; exact absurd hc (by simp)
  | cons a t ih =>
    intro c hc
    rw [List.map_cons]
    by_cases hac : a = c
    · subst hac
      rw [List.find?_cons_of_pos _ (by simp)]
    · rw [List.find?_cons_of_neg _ (by simp [hac])]
      exact ih c (by rcases List.mem_cons.mp hc with h | h; exact absurd h.symm hac; exact h)

theorem find?_first_of_map_nodup {α β : Type _} [DecidableEq β] (f : α → β) :
    ∀ (l : List α) (p : α) (c : β), (l.map f).Nodup → p ∈ l → f p = c →
      l.find? (fun q => f q = c) = some p := by
  intro l
  induction l with
  | nil => intro p c _ hp; exact absurd hp (by simp)
  | cons a t ih =>
    intro p c hnd hp hfc
    rcases List.mem_cons.mp hp with rfl | hpt
    · rw [List.find?_cons_of_pos _ (by simp [hfc])]
    · have hfa : f a ≠ c := by
        intro he
        have h1 : f p ∈ t.map f := List.mem_map_of_mem f hpt
        have h2 : (List.map f (a :: t)).Nodup := hnd
        rw [List.map_cons, List.nodup_cons] at h2
        exact h2.1 (by rw [he, ← hfc]; exact h1)
      rw [List.find?_cons_of_neg _ (by simp [hfa])]
      exact ih p c (by rw [List.map_cons, List.nodup_cons] at hnd; exact hnd.2) hpt hfc

theorem aggDataLookup_isSome (gb : GroupByV)
    (aggFuncs : List (String × List (SeriesV → Value))) (c : String) :
    (GroupByV.aggDataLookup gb aggFuncs c).isSome ↔
      (c ∈ GroupByV.aggColNames aggFuncs ∨ c ∈ gb.byKeys) := by
  rw [GroupByV.aggDataLookup]
  cases hf : (GroupByV.aggPairs aggFuncs).find? (fun p => p.1 ++ "_" ++ toString p.2 = c) with
  | some p =>
    obtain ⟨col, i⟩ := p
    simp only [Option.isSome_some, true_iff]
    left
    have hm := List.mem_of_find?_eq_some hf
    have hp := List.find?_some hf
    simp only [decide_eq_true_eq] at hp
    rw [GroupByV.aggColNames]
    exact hp ▸ List.mem_map_of_mem _ hm
  | none =>
    have hnone : c ∉ GroupByV.aggColNames aggFuncs := by
      intro hc
      rw [GroupByV.aggColNames] at hc
      obtain ⟨p, hp, hpc⟩ := List.mem_map.mp hc
      have := List.find?_eq_none.mp hf p hp
      simp [hpc] at this
    by_cases hk : c ∈ gb.byKeys
    · simp [hk, if_pos hk]
    · simp [hk, hnone, if_neg hk]

end Datago

namespace Datago

theorem flatMap_singleton_eq_map {α β : Type _} (f : α → β) :
    ∀ l : List α, (l.flatMap fun x => [f x]) = l.map f := by
  intro l
  induction l with
  | nil => rfl
  | cons a t ih => simp [List.flatMap_cons, ih]

theorem keyColData_eq (gb : GroupByV) (hkeys : gb.byKeys.Nodup) (t : Nat) (c : String)
    (ht : gb.byKeys.get? t = some c) :
    GroupByV.keyColData gb c = gb.keyOrder.map fun k =>
      (gb.getGroupKeyValues ((gb.groupsOf k).headD 0)).getD t Value.vnil := by
  rw [GroupByV.keyColData, range_filter_getq_singleton hkeys t c ht]
  rw [show (fun k => List.map (fun u =>
      (gb.getGroupKeyValues ((gb.groupsOf k).headD 0)).getD u Value.vnil) [t]) =
    (fun k => [(gb.getGroupKeyValues ((gb.groupsOf k).headD 0)).getD t Value.vnil]) from rfl]
  exact flatMap_singleton_eq_map _ gb.keyOrder

theorem aggPairs_name_find (aggFuncs : List (String × List (SeriesV → Value)))
    (hnames : (GroupByV.aggColNames aggFuncs).Nodup)
    (e : String × List (SeriesV → Value)) (he : e ∈ aggFuncs) (i : Nat) (hi : i < e.2.length) :
    (GroupByV.aggPairs aggFuncs).find?
      (fun p => p.1 ++ "_" ++ toString p.2 = (e.1 ++ "_" ++ toString i)) = some (e.1, i) := by
  have hmem : (e.1, i) ∈ GroupByV.aggPairs aggFuncs := by
    rw [GroupByV.aggPairs, List.mem_flatMap]
    exact ⟨e, he, List.mem_map.mpr ⟨i, List.mem_range.mpr hi, rfl⟩⟩
  have hnames' : ((GroupByV.aggPairs aggFuncs).map
      (fun p => p.1 ++ "_" ++ toString p.2)).Nodup := hnames
  exact find?_first_of_map_nodup (fun p => p.1 ++ "_" ++ toString p.2)
    (GroupByV.aggPairs aggFuncs) (e.1, i) _ hnames' hmem rfl

end Datago

namespace Datago

theorem newRowCount_of_all' {L : Nat} (entries : List (String × List Value))
    (hne : entries ≠ []) (h : ∀ x ∈ entries, x.2.length = L) :
    newRowCount entries 0 = .ok L := by
  cases entries with
  | nil => exact absurd rfl hne
  | cons e t => exact newRowCount_of_all e t h

/-- C3 amended: `Agg` emits one row per group in first-appearance order of
the composed keys; the result's columns are exactly the key columns and
the aggregation columns named `"<column>_<k>"` (decimal `k`), the key
columns holding each group's first-row key cells and the `"<column>_<k>"`
columns the k-th aggregator's per-group results; BUT the ordered column
list is the iteration order `σ` of the Go map handed to `New` — an
arbitrary arrangement of that key set — so the key columns need NOT lead
and the aggregation columns need NOT trail. -/
theorem claim_C3_agg_amended (gb : GroupByV)
    (aggFuncs : List (String × List (SeriesV → Value))) (σ : List String)
    (hval : ∀ e ∈ aggFuncs, (gb.df.data e.1).isSome)
    (hkeys : gb.byKeys.Nodup) (hbk : gb.byKeys ≠ [])
    (hfn : (aggFuncs.map (·.1)).Nodup)
    (hnames : (GroupByV.aggColNames aggFuncs).Nodup)
    (hdisj : ∀ c ∈ gb.byKeys, c ∉ GroupByV.aggColNames aggFuncs)
    (hσ : σ.Perm (gb.byKeys ++ GroupByV.aggColNames aggFuncs)) :
    ∃ F, gb.aggV aggFuncs σ = .ok F ∧
      F.columns = σ ∧
      F.shape = (gb.keyOrder.length, σ.length) ∧
      F.index = IndexV.range gb.keyOrder.length ∧
      (∀ (t : Nat) (c : String), gb.byKeys.get? t = some c →
        F.data c = some (SeriesV.mk' (gb.keyOrder.map fun k =>
          (gb.getGroupKeyValues ((gb.groupsOf k).headD 0)).getD t Value.vnil) c)) ∧
      (∀ e ∈ aggFuncs, ∀ (i : Nat) (f : SeriesV → Value), e.2.get? i = some f →
        F.data (e.1 ++ "_" ++ toString i) = some (SeriesV.mk'
          (gb.keyOrder.map fun k => f (gb.getGroupSeries e.1 (gb.groupsOf k)))
          (e.1 ++ "_" ++ toString i))) := by
  classical
  set g : String → List Value :=
    fun c => (GroupByV.aggDataLookup gb aggFuncs c).getD [] with hg
  have hvalnone : aggFuncs.find? (fun e => (gb.df.data e.1).isNone) = none := by
    rw [List.find?_eq_none]
    intro e he
    have h := hval e he
    cases hda : gb.df.data e.1 with
    | none => rw [hda] at h; simp at h
    | some s => simp [hda]
  have hlen : ∀ p ∈ σ.map (fun c => (c, g c)), p.2.length = gb.keyOrder.length := by
    intro p hp
    obtain ⟨c, hcσ, rfl⟩ := List.mem_map.mp hp
    show (g c).length = _
    have hcm : c ∈ gb.byKeys ++ GroupByV.aggColNames aggFuncs := hσ.mem_iff.mp hcσ
    cases hf : (GroupByV.aggPairs aggFuncs).find?
        (fun p => p.1 ++ "_" ++ toString p.2 = c) with
    | some q =>
      obtain ⟨col, i⟩ := q
      simp [hg, GroupByV.aggDataLookup, hf]
    | none =>
      have hcnot : c ∉ GroupByV.aggColNames aggFuncs := by
        intro hcn
        obtain ⟨q, hq, hqc⟩ := List.mem_map.mp hcn
        have := List.find?_eq_none.mp hf q hq
        simp [hqc] at this
      have hck : c ∈ gb.byKeys := by
        rcases List.mem_append.mp hcm with h | h
        · exact h
        · exact absurd h hcnot
      obtain ⟨t, ht⟩ := List.mem_iff_get?.mp hck
      simp only [hg, GroupByV.aggDataLookup, hf, if_pos hck, Option.getD_some]
      rw [keyColData_eq gb hkeys t c ht]
      simp
  have hσne : σ ≠ [] := by
    intro h
    have h1 := hσ.length_eq
    rw [h, List.length_nil, List.length_append] at h1
    have h2 : gb.byKeys.length = 0 := by omega
    exact hbk (List.length_eq_zero.mp h2)
  have hmapne : ¬ (σ.map (fun c => (c, g c))).isEmpty = true := by
    rw [List.isEmpty_iff, List.map_eq_nil_iff]
    exact hσne
  have hrc : newRowCount (σ.map fun c => (c, g c)) 0 = .ok gb.keyOrder.length :=
    newRowCount_of_all' _ (by rwa [ne_eq, List.map_eq_nil_iff]) hlen
  have hok : gb.aggV aggFuncs σ = NewV (σ.map fun c => (c, g c)) := by
    simp only [GroupByV.aggV, hvalnone]
  have hnew : NewV (σ.map fun c => (c, g c)) = .ok
      { columns := (σ.map fun c => (c, g c)).map (·.1)
        data := fun c => ((σ.map fun x => (x, g x)).find? (fun e => e.1 = c)).map
          fun e => SeriesV.mk' e.2 c
        index := IndexV.range gb.keyOrder.length
        shape := (gb.keyOrder.length, ((σ.map fun c => (c, g c)).map (·.1)).length) } := by
    rw [NewV, if_neg hmapne, hrc]
    rfl
  have hcolsAll : ∀ τ : List String, ((τ.map fun c => (c, g c)).map (·.1)) = τ := by
    intro τ
    induction τ with
    | nil => rfl
    | cons a t ih => simp only [List.map_cons, ih]
  have hcols : ((σ.map fun c => (c, g c)).map (·.1)) = σ := hcolsAll σ
  refine ⟨_, hok.trans hnew, ?_, ?_, rfl, ?_, ?_⟩
  · exact hcols
  · show (gb.keyOrder.length, ((σ.map fun c => (c, g c)).map (·.1)).length) = _
    rw [hcols]
  · intro t c ht
    have hck : c ∈ gb.byKeys := List.get?_mem ht
    have hcσ : c ∈ σ := hσ.mem_iff.mpr (List.mem_append.mpr (.inl hck))
    show (((σ.map fun x => (x, g x)).find? (fun e => e.1 = c)).map
      fun e => SeriesV.mk' e.2 c) = _
    rw [find?_map_pair g σ c hcσ]
    have hfnone : (GroupByV.aggPairs aggFuncs).find?
        (fun p => p.1 ++ "_" ++ toString p.2 = c) = none := by
      cases hf : (GroupByV.aggPairs aggFuncs).find?
          (fun p => p.1 ++ "_" ++ toString p.2 = c) with
      | none => rfl
      | some q =>
        exfalso
        have hqp := List.find?_some hf
        simp only [decide_eq_true_eq] at hqp
        have hqm := List.mem_of_find?_eq_some hf
        exact hdisj c hck (hqp ▸ List.mem_map_of_mem _ hqm)
    have hgc : g c = gb.keyOrder.map fun k =>
        (gb.getGroupKeyValues ((gb.groupsOf k).headD 0)).getD t Value.vnil := by
      simp only [hg, GroupByV.aggDataLookup, hfnone, if_pos hck, Option.getD_some]
      exact keyColData_eq gb hkeys t c ht
    simp only [Option.map_some']
    rw [hgc]
  · intro e he i f hif
    have hi : i < e.2.length := by
      rcases List.get?_eq_some.mp hif with ⟨h, _⟩
      exact h
    have hnane : (e.1 ++ "_" ++ toString i) ∈ GroupByV.aggColNames aggFuncs := by
      rw [GroupByV.aggColNames]
      have hmem : ((e.1, i) : String × Nat) ∈ GroupByV.aggPairs aggFuncs := by
        rw [GroupByV.aggPairs, List.mem_flatMap]
        exact ⟨e, he, List.mem_map.mpr ⟨i, List.mem_range.mpr hi, rfl⟩⟩
      exact List.mem_map.mpr ⟨(e.1, i), hmem, rfl⟩
    have hcσ : (e.1 ++ "_" ++ toString i) ∈ σ :=
      hσ.mem_iff.mpr (List.mem_append.mpr (.inr hnane))
    show (((σ.map fun x => (x, g x)).find? (fun p => p.1 = e.1 ++ "_" ++ toString i)).map
      fun p => SeriesV.mk' p.2 (e.1 ++ "_" ++ toString i)) = _
    rw [find?_map_pair g σ _ hcσ]
    simp only [Option.map_some']
    have hfind := aggPairs_name_find aggFuncs hnames e he i hi
    have hefind : aggFuncs.find? (fun q => q.1 = e.1) = some e :=
      find?_first_of_map_nodup (fun q => q.1) aggFuncs e e.1 hfn he rfl
    have hgetd : e.2.getD i (fun _ => Value.vnil) = f := by
      rw [List.getD_eq_getElem?_getD, ← List.get?_eq_getElem?, hif]
      rfl
    have hgc : g (e.1 ++ "_" ++ toString i) = gb.keyOrder.map fun k =>
        f (gb.getGroupSeries e.1 (gb.groupsOf k)) := by
      simp only [hg, GroupByV.aggDataLookup, hfind, hefind, Option.map_some',
        Option.getD_some, hgetd]
    rw [hgc]

end Datago

namespace Datago

/-- `AggCount`: number of non-NA cells, a Go `int`. -/
def aggCountV : SeriesV → Value := fun s =>
  Value.vint ((s.data.filter (fun v => !(IsNA v))).length)

/-- `AggFirst`: the cell at position 0, nil on an empty group. -/
def aggFirstV : SeriesV → Value := fun s => s.data.headD Value.vnil

/-- Concrete frame for the C3 counterexample: `{group: [A,A,B], value: [1,2,3]}`. -/
def dfC3 : DataFrameV :=
  { columns := ["group", "value"]
    data := fun c =>
      if c = "group" then
        some (SeriesV.mk' [Value.vstr "A", Value.vstr "A", Value.vstr "B"] "group")
      else if c = "value" then
        some (SeriesV.mk' [Value.vint64 1, Value.vint64 2, Value.vint64 3] "value")
      else none
    index := IndexV.range 3
    shape := (3, 2) }

/-- The group-by of `dfC3` over `["group"]`. -/
def gbC3 : GroupByV := ⟨dfC3, ["group"]⟩

/-- C3 counterexample: `Agg` builds its result through `New(data)`, whose
column order is the iteration order of the Go map `data` — randomised by
the runtime.  The iteration order `["value_0", "group"]` is an arrangement
of the map's key set, and under it the result's ordered column list is
`["value_0", "group"]`: the group-key column does NOT lead and the
aggregation column does NOT trail, although the per-column contents and
the row order (first-appearance order A, B) are as claimed. -/
theorem claim_C3_counterexample :
    dfC3.groupByV ["group"] = .ok gbC3 ∧
    ((gbC3.aggV [("value", [aggCountV])] ["value_0", "group"]).toOption.map
      (fun F => (F.columns, F.shape, F.cell "value_0" 0, F.cell "value_0" 1,
        F.cell "group" 0, F.cell "group" 1))) =
      some (["value_0", "group"], (2, 2), some (Value.vint 2), some (Value.vint 1),
        some (Value.vstr "A"), some (Value.vstr "B")) ∧
    gbC3.byKeys = ["group"] ∧
    (["value_0", "group"] : List String) ≠ ["group", "value_0"] ∧
    (["value_0", "group"] : List String).Perm
      (gbC3.byKeys ++ GroupByV.aggColNames [("value", [aggCountV])]) := by
  exact ⟨rfl, rfl, rfl, by decide, by decide⟩

/-- Scenario-D frame: `{group: [A,A,B,B], value: [10,20,30,40]}`. -/
def dfD : DataFrameV :=
  { columns := ["group", "value"]
    data := fun c =>
      if c = "group" then
        some (SeriesV.mk' [Value.vstr "A", Value.vstr "A", Value.vstr "B", Value.vstr "B"] "group")
      else if c = "value" then
        some (SeriesV.mk'
          [Value.vint64 10, Value.vint64 20, Value.vint64 30, Value.vint64 40] "value")
      else none
    index := IndexV.range 4
    shape := (4, 2) }

/-- The group-by of `dfD` over `["group"]`. -/
def gbD : GroupByV := ⟨dfD, ["group"]⟩

/-- The aggregation map `{value: [count, first]}` used by the C3 witness. -/
def aggFuncsD : List (String × List (SeriesV → Value)) := [("value", [aggCountV, aggFirstV])]

/-- Witness for C3's amended theorem at scenario D with the key-first
iteration order. -/
theorem claim_C3_agg_amended_witness :
    (["group", "value_0", "value_1"] : List String).Perm
      (gbD.byKeys ++ GroupByV.aggColNames aggFuncsD) ∧
    (∃ F, gbD.aggV aggFuncsD ["group", "value_0", "value_1"] = .ok F ∧
      F.columns = ["group", "value_0", "value_1"] ∧
      F.shape = (gbD.keyOrder.length, (["group", "value_0", "value_1"] : List String).length) ∧
      F.index = IndexV.range gbD.keyOrder.length ∧
      (∀ (t : Nat) (c : String), gbD.byKeys.get? t = some c →
        F.data c = some (SeriesV.mk' (gbD.keyOrder.map fun k =>
          (gbD.getGroupKeyValues ((gbD.groupsOf k).headD 0)).getD t Value.vnil) c)) ∧
      (∀ e ∈ aggFuncsD, ∀ (i : Nat) (f : SeriesV → Value), e.2.get? i = some f →
        F.data (e.1 ++ "_" ++ toString i) = some (SeriesV.mk'
          (gbD.keyOrder.map fun k => f (gbD.getGroupSeries e.1 (gbD.groupsOf k)))
          (e.1 ++ "_" ++ toString i)))) := by
  refine ⟨by decide, ?_⟩
  exact claim_C3_agg_amended gbD aggFuncsD ["group", "value_0", "value_1"]
    (by decide) (by decide) (by decide) (by decide) (by decide) (by decide) (by decide)

end Datago

namespace Datago

/-! ## Join (merge.go, src/unnamed/part_010) -/

/-- Join modes. -/
inductive JoinTypeV where
  | inner | left | right | outer
deriving DecidableEq, Repr

/-- `MergeOptions` (the `On` field is `onCols` here: `on` is reserved in
Lean). -/
structure MergeOptionsV where
  how : JoinTypeV
  onCols : List String
  leftOn : List String
  rightOn : List String
  suffixes : String × String
  indicator : Bool

/-- `DefaultMergeOptions`. -/
def defaultMergeOptions : MergeOptionsV :=
  { how := .inner, onCols := [], leftOn := [], rightOn := [], suffixes := ("_x", "_y"),
    indicator := false }

/-- The cell of `df` at `(c, i)` as the join code reads it: `Get` errors
leave nil (a missing column would be a nil-pointer panic in Go; all
theorems validate columns first). -/
def cellOrNil (df : DataFrameV) (c : String) (i : Nat) : Value :=
  match df.data c with
  | some s => s.data.getD i Value.vnil
  | none => Value.vnil

/-- `buildRowKey` (identical in structure to the group-by key composer):
null-separated canonical renderings of the key cells. -/
def buildRowKeyV (df : DataFrameV) (keys : List String) (rowIdx : Nat) : String :=
  String.intercalate "\x00" (keys.map fun col => render (cellOrNil df col rowIdx))

/-- `findCommonColumns`: left columns present in the right frame's map. -/
def findCommonColumns (left right : DataFrameV) : List String :=
  left.columns.filter fun col => (right.data col).isSome

/-- `resolveJoinKeys`. -/
def resolveJoinKeys (left right : DataFrameV) (opts : MergeOptionsV) :
    Except String (List String × List String) :=
  if opts.onCols ≠ [] then
    match opts.onCols.find? (fun col => (left.data col).isNone) with
    | some col => .error ("column '" ++ col ++ "' not found in left DataFrame")
    | none =>
      match opts.onCols.find? (fun col => (right.data col).isNone) with
      | some col => .error ("column '" ++ col ++ "' not found in right DataFrame")
      | none => .ok (opts.onCols, opts.onCols)
  else if opts.leftOn ≠ [] ∧ opts.rightOn ≠ [] then
    if opts.leftOn.length ≠ opts.rightOn.length then
      .error "LeftOn and RightOn must have same length"
    else
      match opts.leftOn.find? (fun col => (left.data col).isNone) with
      | some col => .error ("column '" ++ col ++ "' not found in left DataFrame")
      | none =>
        match opts.rightOn.find? (fun col => (right.data col).isNone) with
        | some col => .error ("column '" ++ col ++ "' not found in right DataFrame")
        | none => .ok (opts.leftOn, opts.rightOn)
  else
    let common := findCommonColumns left right
    if common = [] then .error "no common columns found and no join keys specified"
    else .ok (common, common)

/-- `buildJoinIndex`'s bucket for one composed key: the row positions with
that key, in ascending order (the map is built by one ascending scan);
the bucket is present in the Go map iff this list is nonempty. -/
def joinIndexRows (df : DataFrameV) (keys : List String) (k : String) : List Nat :=
  (List.range df.shape.1).filter fun i => buildRowKeyV df keys i = k

/-- `count_X(k)`: how many rows of `df` compose key `k`. -/
def countKey (df : DataFrameV) (keys : List String) (k : String) : Nat :=
  (joinIndexRows df keys k).length

/-- A `columnMapping` entry: where a result column's cells come from. -/
inductive ColSrc where
  | key (keyIndex : Nat)
  | left (srcCol : String)
  | right (srcCol : String)
deriving DecidableEq, Repr

/-- The accumulating state of `prepareResultColumns`: the ordered result
columns and the `colMapping` assignments in order (later assignments to
the same name override earlier ones, as in a Go map). -/
structure PrepAcc where
  cols : List String
  mapping : List (String × ColSrc)

/-- Go-map lookup over the assignment log: the LAST write wins. -/
def mappingLookup (m : List (String × ColSrc)) (c : String) : Option ColSrc :=
  (m.reverse.find? (fun e => e.1 = c)).map (·.2)

/-- First index of `c` in `keys` (the `break` in the key-index search). -/
def keyIdxAux (c : String) : List String → Nat → Option Nat
  | [], _ => none
  | k :: t, i => if k = c then some i else keyIdxAux c t (i + 1)

/-- The result name of a left column: suffixed iff it collides with a
right column and is not a join key. -/
def leftResultNameV (left right : DataFrameV) (leftKeys : List String) (sufL : String)
    (c : String) : String :=
  if (right.data c).isSome ∧ c ∉ leftKeys then c ++ sufL else c

/-- The left-column pass of `prepareResultColumns`.  The Go loop only ever
appends (it reads no accumulated state), so it is a plain map over the
left columns. -/
def prepLeft (left right : DataFrameV) (leftKeys : List String) (sufL : String) : PrepAcc :=
  { cols := left.columns.map (leftResultNameV left right leftKeys sufL)
    mapping := left.columns.map fun col =>
      (leftResultNameV left right leftKeys sufL col,
        if col ∈ leftKeys then ColSrc.key ((keyIdxAux col leftKeys 0).getD 0)
        else ColSrc.left col) }

/-- The right-column pass of `prepareResultColumns`: skip same-name key
columns present on the left, suffix other collisions, skip names already
emitted (so this pass never reassigns an existing mapping). -/
def prStep (left : DataFrameV) (rightKeys : List String) (sufR : String)
    (acc : PrepAcc) (col : String) : PrepAcc :=
  let isRightKey := col ∈ rightKeys
  let inLeft := (left.data col).isSome
  if inLeft ∧ isRightKey then acc
  else
    let resultCol := if inLeft then col ++ sufR else col
    if resultCol ∈ acc.cols then acc
    else ⟨acc.cols ++ [resultCol], acc.mapping ++ [(resultCol, ColSrc.right col)]⟩

def prepRight (left right : DataFrameV) (rightKeys : List String) (sufR : String)
    (acc0 : PrepAcc) : PrepAcc :=
  right.columns.foldl (prStep left rightKeys sufR) acc0

/-- `prepareResultColumns`. -/
def prepResultColumns (left right : DataFrameV) (leftKeys rightKeys : List String)
    (opts : MergeOptionsV) : PrepAcc :=
  prepRight left right rightKeys opts.suffixes.2
    (prepLeft left right leftKeys opts.suffixes.1)

/-- One emitted result row, tagged with its source rows. -/
inductive JoinEmission where
  | matched (li ri : Nat)
  | leftOnly (li : Nat)
  | rightOnly (ri : Nat)
deriving DecidableEq, Repr

/-- The cell each append helper writes for a result column with mapping
`m` at emission `e` (`appendJoinedRow` / `appendLeftOnlyRow` /
`appendRightOnlyRow`): key columns read the left side except in
right-only rows; the missing side of a one-sided row is nil. -/
def emissionVal (left right : DataFrameV) (leftKeys rightKeys : List String)
    (m : ColSrc) : JoinEmission → Value
  | .matched li ri =>
    match m with
    | .key t => cellOrNil left (leftKeys.getD t "") li
    | .left c => cellOrNil left c li
    | .right c => cellOrNil right c ri
  | .leftOnly li =>
    match m with
    | .key t => cellOrNil left (leftKeys.getD t "") li
    | .left c => cellOrNil left c li
    | .right _ => Value.vnil
  | .rightOnly ri =>
    match m with
    | .key t => cellOrNil right (rightKeys.getD t "") ri
    | .left _ => Value.vnil
    | .right c => cellOrNil right c ri

/-- The `_merge` indicator tag of an emission. -/
def emissionTag : JoinEmission → Value
  | .matched _ _ => .vstr "both"
  | .leftOnly _ => .vstr "left_only"
  | .rightOnly _ => .vstr "right_only"

/-- Inner join emissions: stream the left rows, expand each right bucket. -/
def innerEmissions (left right : DataFrameV) (leftKeys rightKeys : List String) :
    List JoinEmission :=
  (List.range left.shape.1).flatMap fun i =>
    (joinIndexRows right rightKeys (buildRowKeyV left leftKeys i)).map (.matched i ·)

/-- Left join emissions: a left-only row exactly when the bucket is absent. -/
def leftEmissions (left right : DataFrameV) (leftKeys rightKeys : List String) :
    List JoinEmission :=
  (List.range left.shape.1).flatMap fun i =>
    let m := joinIndexRows right rightKeys (buildRowKeyV left leftKeys i)
    if m.isEmpty then [.leftOnly i] else m.map (.matched i ·)

/-- Right join emissions (symmetric, probing a left index). -/
def rightEmissions (left right : DataFrameV) (leftKeys rightKeys : List String) :
    List JoinEmission :=
  (List.range right.shape.1).flatMap fun j =>
    let m := joinIndexRows left leftKeys (buildRowKeyV right rightKeys j)
    if m.isEmpty then [.rightOnly j] else m.map (.matched · j)

/-- Outer join emissions: the left pass, then the right rows never matched
during it (a right row is matched iff some left row shares its key). -/
def outerEmissions (left right : DataFrameV) (leftKeys rightKeys : List String) :
    List JoinEmission :=
  leftEmissions left right leftKeys rightKeys ++
    ((List.range right.shape.1).filter fun j =>
      ¬ (List.range left.shape.1).any fun i =>
        buildRowKeyV left leftKeys i = buildRowKeyV right rightKeys j).map (.rightOnly ·)

/-- `buildJoinResult`: per result column one cell per emission; the
`_merge` column (appended last, overriding) when the indicator is set;
fresh range index; the row count is the common column length (0 when
there are no columns at all, as the sentinel scan then never fires). -/
def buildJoinResult (left right : DataFrameV) (leftKeys rightKeys : List String)
    (prep : PrepAcc) (emissions : List JoinEmission) (indicator : Bool) : DataFrameV :=
  let cols := if indicator then prep.cols ++ ["_merge"] else prep.cols
  let rowCount := if cols.isEmpty then 0 else emissions.length
  { columns := cols
    data := fun c =>
      if indicator ∧ c = "_merge" then
        some (SeriesV.mk' (emissions.map emissionTag) c)
      else if c ∈ prep.cols then
        some (SeriesV.mk'
          (match mappingLookup prep.mapping c with
            | some m => emissions.map (emissionVal left right leftKeys rightKeys m)
            | none => []) c)
      else none
    index := IndexV.range rowCount
    shape := (rowCount, cols.length) }

/-- `Merge(left, right, opts)`. -/
def MergeV (left right : DataFrameV) (opts : MergeOptionsV) : Except String DataFrameV :=
  (resolveJoinKeys left right opts).map fun keys =>
    let prep := prepResultColumns left right keys.1 keys.2 opts
    match opts.how with
    | .inner => buildJoinResult left right keys.1 keys.2 prep
        (innerEmissions left right keys.1 keys.2) opts.indicator
    | .left => buildJoinResult left right keys.1 keys.2 prep
        (leftEmissions left right keys.1 keys.2) opts.indicator
    | .right => buildJoinResult left right keys.1 keys.2 prep
        (rightEmissions left right keys.1 keys.2) opts.indicator
    | .outer => buildJoinResult left right keys.1 keys.2 prep
        (outerEmissions left right keys.1 keys.2) opts.indicator

end Datago


namespace Datago

/-! ## C4 — inner-join row count -/

theorem find?_isNone_none {df : DataFrameV} {K : List String}
    (h : ∀ c ∈ K, (df.data c).isSome) :
    K.find? (fun col => (df.data col).isNone) = none := by
  rw [List.find?_eq_none]
  intro c hc
  have := h c hc
  cases hd : df.data c with
  | none => rw [hd] at this; simp at this
  | some s => simp [hd]

theorem resolveJoinKeys_on (L R : DataFrameV) (opts : MergeOptionsV)
    (hK : opts.onCols ≠ [])
    (hKL : ∀ c ∈ opts.onCols, (L.data c).isSome)
    (hKR : ∀ c ∈ opts.onCols, (R.data c).isSome) :
    resolveJoinKeys L R opts = .ok (opts.onCols, opts.onCols) := by
  rw [resolveJoinKeys, if_pos hK, find?_isNone_none hKL, find?_isNone_none hKR]

theorem prStep_foldl_extends (left : DataFrameV) (rightKeys : List String) (sufR : String) :
    ∀ (cs : List String) (acc0 : PrepAcc),
      ∃ extC extM,
        (cs.foldl (prStep left rightKeys sufR) acc0).cols = acc0.cols ++ extC ∧
        (cs.foldl (prStep left rightKeys sufR) acc0).mapping = acc0.mapping ++ extM ∧
        (∀ e ∈ extM, e.1 ∉ acc0.cols) := by
  intro cs
  induction cs with
  | nil => intro acc0; exact ⟨[], [], by simp, by simp, by simp⟩
  | cons col t ih =>
    intro acc0
    by_cases h1 : (left.data col).isSome ∧ col ∈ rightKeys
    · have hstep : prStep left rightKeys sufR acc0 col = acc0 := by
        simp [prStep, h1.1, h1.2]
      rw [List.foldl_cons, hstep]
      exact ih acc0
    · by_cases h2 : (if (left.data col).isSome then col ++ sufR else col) ∈ acc0.cols
      · have hstep : prStep left rightKeys sufR acc0 col = acc0 := by
          simp only [prStep]
          rw [if_neg h1, if_pos h2]
        rw [List.foldl_cons, hstep]
        exact ih acc0
      · have hstep : prStep left rightKeys sufR acc0 col =
            ⟨acc0.cols ++ [if (left.data col).isSome then col ++ sufR else col],
             acc0.mapping ++ [(if (left.data col).isSome then col ++ sufR else col,
               ColSrc.right col)]⟩ := by
          simp only [prStep]
          rw [if_neg h1, if_neg h2]
        rw [List.foldl_cons, hstep]
        obtain ⟨extC, extM, hC, hM, hNot⟩ :=
          ih ⟨acc0.cols ++ [if (left.data col).isSome then col ++ sufR else col],
            acc0.mapping ++ [(if (left.data col).isSome then col ++ sufR else col,
              ColSrc.right col)]⟩
        refine ⟨(if (left.data col).isSome then col ++ sufR else col) :: extC,
          ((if (left.data col).isSome then col ++ sufR else col), ColSrc.right col) :: extM,
          ?_, ?_, ?_⟩
        · rw [hC]; simp
        · rw [hM]; simp
        · intro e he
          rcases List.mem_cons.mp he with rfl | het
          · exact h2
          · have := hNot e het
            intro hin
            exact this (by simp [hin])

theorem prepResultColumns_cols (left right : DataFrameV) (leftKeys rightKeys : List String)
    (opts : MergeOptionsV) :
    ∃ extC, (prepResultColumns left right leftKeys rightKeys opts).cols =
      left.columns.map (leftResultNameV left right leftKeys opts.suffixes.1) ++ extC := by
  obtain ⟨extC, extM, hC, _, _⟩ :=
    prStep_foldl_extends left rightKeys opts.suffixes.2 right.columns
      (prepLeft left right leftKeys opts.suffixes.1)
  exact ⟨extC, hC⟩

theorem innerEmissions_length (L R : DataFrameV) (K : List String) :
    (innerEmissions L R K K).length =
      ∑ i ∈ Finset.range L.shape.1, countKey R K (buildRowKeyV L K i) := by
  rw [innerEmissions, List.length_flatMap]
  have h : (List.length ∘ fun i =>
      (joinIndexRows R K (buildRowKeyV L K i)).map (JoinEmission.matched i ·)) =
      fun i => countKey R K (buildRowKeyV L K i) := by
    funext i
    show ((joinIndexRows R K (buildRowKeyV L K i)).map (JoinEmission.matched i ·)).length = _
    rw [List.length_map]
    rfl
  rw [h]
  rfl

theorem countKey_eq_zero_of_not_mem (df : DataFrameV) (K : List String) (k : String)
    (h : k ∉ (Finset.range df.shape.1).image (buildRowKeyV df K)) :
    countKey df K k = 0 := by
  rw [countKey, joinIndexRows, List.length_eq_zero]
  rw [List.filter_eq_nil_iff]
  intro i hi
  simp only [decide_eq_true_eq]
  intro he
  exact h (Finset.mem_image.mpr ⟨i, Finset.mem_range.mpr (List.mem_range.mp hi), he⟩)

theorem sum_countR_regroup (L R : DataFrameV) (K : List String) :
    ∑ i ∈ Finset.range L.shape.1, countKey R K (buildRowKeyV L K i) =
      ∑ k ∈ ((Finset.range L.shape.1).image (buildRowKeyV L K)) ∩
          ((Finset.range R.shape.1).image (buildRowKeyV R K)),
        countKey L K k * countKey R K k := by
  rw [Finset.sum_comp (countKey R K) (buildRowKeyV L K)]
  have hcard : ∀ k, ((Finset.range L.shape.1).filter
      (fun i => buildRowKeyV L K i = k)).card = countKey L K k := by
    intro k
    rfl
  rw [Finset.sum_congr rfl fun k _ => by rw [smul_eq_mul, hcard k]]
  symm
  apply Finset.sum_subset Finset.inter_subset_left
  intro k hkL hkNot
  have hkR : k ∉ (Finset.range R.shape.1).image (buildRowKeyV R K) := by
    intro h
    exact hkNot (Finset.mem_inter.mpr ⟨hkL, h⟩)
  rw [countKey_eq_zero_of_not_mem R K k hkR, Nat.mul_zero]

/-- C4: for every pair of frames and every nonempty key list valid for
both sides, the inner merge on those keys succeeds and emits exactly
`Σ_{k ∈ K_L ∩ K_R} count_L(k) × count_R(k)` rows, where the counts tally
the rows whose key cells compose (null-separated canonical renderings) to
`k` and the intersection ranges over the composed keys occurring on both
sides. -/
theorem claim_C4_inner_merge_rowcount (L R : DataFrameV) (K : List String)
    (hK : K ≠ [])
    (hKL : ∀ c ∈ K, (L.data c).isSome)
    (hKR : ∀ c ∈ K, (R.data c).isSome)
    (hKLc : ∀ c ∈ K, c ∈ L.columns) :
    ∃ F, MergeV L R { defaultMergeOptions with how := .inner, onCols := K } = .ok F ∧
      F.shape.1 = ∑ k ∈ ((Finset.range L.shape.1).image (buildRowKeyV L K)) ∩
          ((Finset.range R.shape.1).image (buildRowKeyV R K)),
        countKey L K k * countKey R K k := by
  have hres := resolveJoinKeys_on L R { defaultMergeOptions with how := .inner, onCols := K }
    hK hKL hKR
  have hok : MergeV L R { defaultMergeOptions with how := .inner, onCols := K } =
      .ok (buildJoinResult L R K K
        (prepResultColumns L R K K { defaultMergeOptions with how := .inner, onCols := K })
        (innerEmissions L R K K) false) := by
    rw [MergeV, hres]
    rfl
  refine ⟨_, hok, ?_⟩
  have hLcne : L.columns ≠ [] := by
    cases hKc : K with
    | nil => exact absurd hKc hK
    | cons c t =>
      have : c ∈ L.columns := hKLc c (by rw [hKc]; exact List.mem_cons_self c t)
      intro h
      rw [h] at this
      simp at this
  have hcolsne : ¬ ((prepResultColumns L R K K
      { defaultMergeOptions with how := .inner, onCols := K }).cols).isEmpty = true := by
    obtain ⟨extC, hC⟩ := prepResultColumns_cols L R K K
      { defaultMergeOptions with how := .inner, onCols := K }
    rw [List.isEmpty_iff, hC]
    intro h
    rcases List.append_eq_nil.mp h with ⟨h1, _⟩
    exact hLcne (List.map_eq_nil_iff.mp h1)
  show (if ((prepResultColumns L R K K
      { defaultMergeOptions with how := .inner, onCols := K }).cols).isEmpty then 0
    else (innerEmissions L R K K).length) = _
  rw [if_neg hcolsne, innerEmissions_length, sum_countR_regroup]


def dfC4L : DataFrameV :=
  { columns := ["year", "quarter", "sales"]
    data := fun c =>
      if c = "year" then
        some (SeriesV.mk' [Value.vint64 2020, Value.vint64 2020, Value.vint64 2021,
          Value.vint64 2021] "year")
      else if c = "quarter" then
        some (SeriesV.mk' [Value.vint64 1, Value.vint64 2, Value.vint64 1,
          Value.vint64 2] "quarter")
      else if c = "sales" then
        some (SeriesV.mk' [Value.vint64 100, Value.vint64 150, Value.vint64 200,
          Value.vint64 250] "sales")
      else none
    index := IndexV.range 4
    shape := (4, 3) }

def dfC4R : DataFrameV :=
  { columns := ["year", "quarter", "target"]
    data := fun c =>
      if c = "year" then
        some (SeriesV.mk' [Value.vint64 2020, Value.vint64 2021] "year")
      else if c = "quarter" then
        some (SeriesV.mk' [Value.vint64 1, Value.vint64 2] "quarter")
      else if c = "target" then
        some (SeriesV.mk' [Value.vint64 120, Value.vint64 280] "target")
      else none
    index := IndexV.range 2
    shape := (2, 3) }

theorem claim_C4_inner_merge_rowcount_witness :
    ∃ F, MergeV dfC4L dfC4R
        { defaultMergeOptions with how := .inner, onCols := ["year", "quarter"] } = .ok F ∧
      F.shape.1 = ∑ k ∈ ((Finset.range dfC4L.shape.1).image (buildRowKeyV dfC4L
          ["year", "quarter"])) ∩
          ((Finset.range dfC4R.shape.1).image (buildRowKeyV dfC4R ["year", "quarter"])),
        countKey dfC4L ["year", "quarter"] k * countKey dfC4R ["year", "quarter"] k :=
  claim_C4_inner_merge_rowcount dfC4L dfC4R ["year", "quarter"]
    (by decide) (by decide) (by decide) (by decide)


/-! ## C5 — left join: row count, left-row coverage, NA fill -/

/-- Left-merge options on key list `K` (all other options default). -/
def leftOpts (K : List String) : MergeOptionsV :=
  { defaultMergeOptions with how := .left, onCols := K }

theorem find?_append_of_none {α : Type _} (p : α → Bool) :
    ∀ (l1 l2 : List α), (∀ x ∈ l1, p x = false) → (l1 ++ l2).find? p = l2.find? p := by
  intro l1
  induction l1 with
  | nil => intro l2 _; rfl
  | cons a t ih =>
    intro l2 h
    have hpa : ¬ p a = true := by
      rw [h a (List.mem_cons_self a t)]
      exact Bool.false_ne_true
    rw [List.cons_append, List.find?_cons_of_neg _ hpa]
    exact ih l2 (fun x hx => h x (List.mem_cons_of_mem a hx))

theorem keyIdxAux_spec (c : String) :
    ∀ (l : List String) (i : Nat), c ∈ l →
      ∃ t, keyIdxAux c l i = some (i + t) ∧ l.getD t "" = c := by
  intro l
  induction l with
  | nil => intro i h; exact absurd h (by simp)
  | cons k tl ih =>
    intro i h
    by_cases hk : k = c
    · refine ⟨0, ?_, by simp [hk]⟩
      rw [keyIdxAux, if_pos hk, Nat.add_zero]
    · have hc : c ∈ tl := by
        rcases List.mem_cons.mp h with h' | h'
        · exact absurd h'.symm hk
        · exact h'
      obtain ⟨t, ht, hg⟩ := ih (i + 1) hc
      refine ⟨t + 1, ?_, by simpa using hg⟩
      rw [keyIdxAux, if_neg hk, ht]
      congr 1
      omega

theorem keyIdx_getD (c : String) (K : List String) (h : c ∈ K) :
    K.getD ((keyIdxAux c K 0).getD 0) "" = c := by
  obtain ⟨t, ht, hg⟩ := keyIdxAux_spec c K 0 h
  rw [ht]
  simpa using hg

theorem leftEmissions_length (L R : DataFrameV) (K : List String) :
    (leftEmissions L R K K).length =
      ∑ i ∈ Finset.range L.shape.1, max 1 (countKey R K (buildRowKeyV L K i)) := by
  rw [leftEmissions, List.length_flatMap]
  have h : (List.length ∘ fun i =>
      let m := joinIndexRows R K (buildRowKeyV L K i)
      if m.isEmpty then [JoinEmission.leftOnly i] else m.map (JoinEmission.matched i ·)) =
      fun i => max 1 (countKey R K (buildRowKeyV L K i)) := by
    funext i
    show (if (joinIndexRows R K (buildRowKeyV L K i)).isEmpty then [JoinEmission.leftOnly i]
      else (joinIndexRows R K (buildRowKeyV L K i)).map (JoinEmission.matched i ·)).length = _
    rw [countKey]
    cases hm : joinIndexRows R K (buildRowKeyV L K i) with
    | nil => simp
    | cons r t =>
      simp only [List.isEmpty_cons, Bool.false_eq_true, if_false, List.length_map,
        List.length_cons]
      omega
  rw [h]
  rfl

theorem prep_cols_not_empty (L R : DataFrameV) (leftKeys rightKeys : List String)
    (opts : MergeOptionsV) (hL : L.columns ≠ []) :
    ¬ ((prepResultColumns L R leftKeys rightKeys opts).cols.isEmpty = true) := by
  obtain ⟨extC, hC⟩ := prepResultColumns_cols L R leftKeys rightKeys opts
  rw [List.isEmpty_iff, hC]
  intro h
  rcases List.append_eq_nil.mp h with ⟨h1, _⟩
  exact hL (List.map_eq_nil_iff.mp h1)

theorem mappingLookup_prep_left (L R : DataFrameV) (K : List String) (opts : MergeOptionsV)
    (c : String) (hc : c ∈ L.columns)
    (hnd : (L.columns.map (leftResultNameV L R K opts.suffixes.1)).Nodup) :
    mappingLookup (prepResultColumns L R K K opts).mapping
        (leftResultNameV L R K opts.suffixes.1 c) =
      some (if c ∈ K then ColSrc.key ((keyIdxAux c K 0).getD 0) else ColSrc.left c) := by
  obtain ⟨extC, extM, hCC, hM, hNot⟩ :=
    prStep_foldl_extends L K opts.suffixes.2 R.columns (prepLeft L R K opts.suffixes.1)
  rw [prepResultColumns, prepRight, mappingLookup, hM, List.reverse_append]
  rw [find?_append_of_none _ _ _ (by
    intro x hx
    have hx' : x ∈ extM := List.mem_reverse.mp hx
    have hx1 : x.1 ∉ (prepLeft L R K opts.suffixes.1).cols := hNot x hx'
    have hname : leftResultNameV L R K opts.suffixes.1 c ∈
        (prepLeft L R K opts.suffixes.1).cols :=
      List.mem_map_of_mem _ hc
    rw [decide_eq_false_iff_not]
    intro heq
    exact hx1 (heq ▸ hname))]
  have hrev : (prepLeft L R K opts.suffixes.1).mapping.reverse =
      L.columns.reverse.map (fun col => (leftResultNameV L R K opts.suffixes.1 col,
        if col ∈ K then ColSrc.key ((keyIdxAux col K 0).getD 0) else ColSrc.left col)) := by
    show (L.columns.map (fun col => (leftResultNameV L R K opts.suffixes.1 col,
      if col ∈ K then ColSrc.key ((keyIdxAux col K 0).getD 0)
      else ColSrc.left col))).reverse = _
    rw [List.map_reverse]
  rw [hrev]
  have hnd' : ((L.columns.reverse.map (fun col => (leftResultNameV L R K opts.suffixes.1 col,
      if col ∈ K then ColSrc.key ((keyIdxAux col K 0).getD 0)
      else ColSrc.left col))).map (fun (e : String × ColSrc) => e.1)).Nodup := by
    rw [List.map_map]
    show (L.columns.reverse.map (leftResultNameV L R K opts.suffixes.1)).Nodup
    rw [List.map_reverse]
    exact List.nodup_reverse.mpr hnd
  have hmem : (fun col => (leftResultNameV L R K opts.suffixes.1 col,
      if col ∈ K then ColSrc.key ((keyIdxAux col K 0).getD 0)
      else ColSrc.left col)) c ∈
      L.columns.reverse.map (fun col => (leftResultNameV L R K opts.suffixes.1 col,
        if col ∈ K then ColSrc.key ((keyIdxAux col K 0).getD 0)
        else ColSrc.left col)) :=
    List.mem_map_of_mem _ (List.mem_reverse.mpr hc)
  have hfind := find?_first_of_map_nodup (fun (e : String × ColSrc) => e.1)
    (L.columns.reverse.map (fun col => (leftResultNameV L R K opts.suffixes.1 col,
      if col ∈ K then ColSrc.key ((keyIdxAux col K 0).getD 0)
      else ColSrc.left col)))
    ((fun col => (leftResultNameV L R K opts.suffixes.1 col,
      if col ∈ K then ColSrc.key ((keyIdxAux col K 0).getD 0)
      else ColSrc.left col)) c)
    (leftResultNameV L R K opts.suffixes.1 c) hnd' hmem rfl
  have hfind2 : List.find? (fun (e : String × ColSrc) =>
      e.1 = leftResultNameV L R K opts.suffixes.1 c)
      (L.columns.reverse.map (fun col => (leftResultNameV L R K opts.suffixes.1 col,
        if col ∈ K then ColSrc.key ((keyIdxAux col K 0).getD 0)
        else ColSrc.left col))) =
      some (leftResultNameV L R K opts.suffixes.1 c,
        if c ∈ K then ColSrc.key ((keyIdxAux c K 0).getD 0) else ColSrc.left c) := hfind
  rw [hfind2, Option.map_some']


/-- C5: for every pair of frames and every nonempty key list present in
both frames' data maps and listed among the left frame's columns, with
the left result-column names collision-free, the left merge succeeds and
(1) has exactly `Σ_{r ∈ L} max(1, count_R(key_L(r)))` rows, (2) every
left row surfaces in at least one result row, every left column's cell
carried over under its result name, and (3) at every left-only emission
every result column mapped to a right source holds nil (NA). -/
theorem claim_C5_left_merge (L R : DataFrameV) (K : List String)
    (hK : K ≠ [])
    (hKL : ∀ c ∈ K, (L.data c).isSome)
    (hKR : ∀ c ∈ K, (R.data c).isSome)
    (hKLc : ∀ c ∈ K, c ∈ L.columns)
    (hnd : (L.columns.map (leftResultNameV L R K "_x")).Nodup) :
    ∃ F, MergeV L R (leftOpts K) = .ok F ∧
      F.shape.1 = ∑ i ∈ Finset.range L.shape.1,
        max 1 (countKey R K (buildRowKeyV L K i)) ∧
      (∀ i < L.shape.1, ∃ j < F.shape.1, ∀ c ∈ L.columns,
        F.cell (leftResultNameV L R K "_x" c) j = some (cellOrNil L c i)) ∧
      (∀ j li, (leftEmissions L R K K).get? j = some (JoinEmission.leftOnly li) →
        ∀ c rc, mappingLookup (prepResultColumns L R K K (leftOpts K)).mapping c =
            some (ColSrc.right rc) →
          c ∈ (prepResultColumns L R K K (leftOpts K)).cols →
          F.cell c j = some Value.vnil) := by
  have hres := resolveJoinKeys_on L R (leftOpts K) hK hKL hKR
  have hok : MergeV L R (leftOpts K) =
      .ok (buildJoinResult L R K K (prepResultColumns L R K K (leftOpts K))
        (leftEmissions L R K K) false) := by
    rw [MergeV, hres]
    rfl
  have hLcne : L.columns ≠ [] := by
    cases hKc : K with
    | nil => exact absurd hKc hK
    | cons c t =>
      have hmem : c ∈ L.columns := hKLc c (by rw [hKc]; exact List.mem_cons_self c t)
      intro h
      rw [h] at hmem
      simp at hmem
  have hne := prep_cols_not_empty L R K K (leftOpts K) hLcne
  refine ⟨_, hok, ?_, ?_, ?_⟩
  · show (if ((prepResultColumns L R K K (leftOpts K)).cols).isEmpty then 0
      else (leftEmissions L R K K).length) = _
    rw [if_neg hne, leftEmissions_length]
  · intro i hi
    obtain ⟨e, hmem, he⟩ : ∃ e, e ∈ leftEmissions L R K K ∧
        (e = JoinEmission.leftOnly i ∨ ∃ ri, e = JoinEmission.matched i ri) := by
      cases hb : joinIndexRows R K (buildRowKeyV L K i) with
      | nil =>
        refine ⟨JoinEmission.leftOnly i, ?_, Or.inl rfl⟩
        rw [leftEmissions]
        apply List.mem_flatMap.mpr
        refine ⟨i, List.mem_range.mpr hi, ?_⟩
        show JoinEmission.leftOnly i ∈
          (if (joinIndexRows R K (buildRowKeyV L K i)).isEmpty then [JoinEmission.leftOnly i]
           else (joinIndexRows R K (buildRowKeyV L K i)).map (JoinEmission.matched i ·))
        rw [hb]
        simp
      | cons r t =>
        refine ⟨JoinEmission.matched i r, ?_, Or.inr ⟨r, rfl⟩⟩
        rw [leftEmissions]
        apply List.mem_flatMap.mpr
        refine ⟨i, List.mem_range.mpr hi, ?_⟩
        show JoinEmission.matched i r ∈
          (if (joinIndexRows R K (buildRowKeyV L K i)).isEmpty then [JoinEmission.leftOnly i]
           else (joinIndexRows R K (buildRowKeyV L K i)).map (JoinEmission.matched i ·))
        rw [hb]
        simp
    obtain ⟨j, hj⟩ := List.get?_of_mem hmem
    have hjlt : j < (leftEmissions L R K K).length := by
      by_contra hge
      rw [List.get?_eq_none.mpr (Nat.le_of_not_lt hge)] at hj
      exact Option.noConfusion hj
    refine ⟨j, ?_, ?_⟩
    · show j < (if ((prepResultColumns L R K K (leftOpts K)).cols).isEmpty then 0
        else (leftEmissions L R K K).length)
      rw [if_neg hne]
      exact hjlt
    · intro c hc
      have hml' : mappingLookup (prepResultColumns L R K K (leftOpts K)).mapping
          (leftResultNameV L R K "_x" c) =
          some (if c ∈ K then ColSrc.key ((keyIdxAux c K 0).getD 0) else ColSrc.left c) :=
        mappingLookup_prep_left L R K (leftOpts K) c hc hnd
      have hnamemem : leftResultNameV L R K "_x" c ∈
          (prepResultColumns L R K K (leftOpts K)).cols := by
        obtain ⟨extC, extM, hCC, _, _⟩ :=
          prStep_foldl_extends L K (leftOpts K).suffixes.2 R.columns
            (prepLeft L R K (leftOpts K).suffixes.1)
        rw [prepResultColumns, prepRight, hCC]
        exact List.mem_append_left _ (List.mem_map_of_mem _ hc)
      have hdata : (buildJoinResult L R K K (prepResultColumns L R K K (leftOpts K))
          (leftEmissions L R K K) false).data (leftResultNameV L R K "_x" c) =
          some (SeriesV.mk' ((leftEmissions L R K K).map (emissionVal L R K K
            (if c ∈ K then ColSrc.key ((keyIdxAux c K 0).getD 0) else ColSrc.left c)))
            (leftResultNameV L R K "_x" c)) := by
        show (if (false : Bool) ∧ leftResultNameV L R K "_x" c = "_merge" then
            some (SeriesV.mk' ((leftEmissions L R K K).map emissionTag)
              (leftResultNameV L R K "_x" c))
          else if leftResultNameV L R K "_x" c ∈
              (prepResultColumns L R K K (leftOpts K)).cols then
            some (SeriesV.mk'
              (match mappingLookup (prepResultColumns L R K K (leftOpts K)).mapping
                  (leftResultNameV L R K "_x" c) with
                | some m => (leftEmissions L R K K).map (emissionVal L R K K m)
                | none => []) (leftResultNameV L R K "_x" c))
          else none) = _
        rw [if_neg (by simp), if_pos hnamemem, hml']
      rw [DataFrameV.cell, hdata, Option.some_bind]
      show ((leftEmissions L R K K).map (emissionVal L R K K
        (if c ∈ K then ColSrc.key ((keyIdxAux c K 0).getD 0) else ColSrc.left c))).get? j =
        some (cellOrNil L c i)
      rw [List.get?_map, hj, Option.map_some']
      by_cases hck : c ∈ K
      · rw [if_pos hck]
        rcases he with rfl | ⟨ri, rfl⟩
        · rw [show emissionVal L R K K (ColSrc.key ((keyIdxAux c K 0).getD 0))
              (JoinEmission.leftOnly i) =
              cellOrNil L (K.getD ((keyIdxAux c K 0).getD 0) "") i from rfl,
            keyIdx_getD c K hck]
        · rw [show emissionVal L R K K (ColSrc.key ((keyIdxAux c K 0).getD 0))
              (JoinEmission.matched i ri) =
              cellOrNil L (K.getD ((keyIdxAux c K 0).getD 0) "") i from rfl,
            keyIdx_getD c K hck]
      · rw [if_neg hck]
        rcases he with rfl | ⟨ri, rfl⟩
        · rfl
        · rfl
  · intro j li hj c rc hml hcmem
    have hdata : (buildJoinResult L R K K (prepResultColumns L R K K (leftOpts K))
        (leftEmissions L R K K) false).data c =
        some (SeriesV.mk' ((leftEmissions L R K K).map (emissionVal L R K K
          (ColSrc.right rc))) c) := by
      show (if (false : Bool) ∧ c = "_merge" then
          some (SeriesV.mk' ((leftEmissions L R K K).map emissionTag) c)
        else if c ∈ (prepResultColumns L R K K (leftOpts K)).cols then
          some (SeriesV.mk'
            (match mappingLookup (prepResultColumns L R K K (leftOpts K)).mapping c with
              | some m => (leftEmissions L R K K).map (emissionVal L R K K m)
              | none => []) c)
        else none) = _
      rw [if_neg (by simp), if_pos hcmem, hml]
    rw [DataFrameV.cell, hdata, Option.some_bind]
    show ((leftEmissions L R K K).map (emissionVal L R K K (ColSrc.right rc))).get? j =
      some Value.vnil
    rw [List.get?_map, hj, Option.map_some']
    rfl


def dfC5L : DataFrameV :=
  { columns := ["id", "name"]
    data := fun c =>
      if c = "id" then
        some (SeriesV.mk' [Value.vint64 1, Value.vint64 2, Value.vint64 3] "id")
      else if c = "name" then
        some (SeriesV.mk' [Value.vstr "A", Value.vstr "B", Value.vstr "C"] "name")
      else none
    index := IndexV.range 3
    shape := (3, 2) }

def dfC5R : DataFrameV :=
  { columns := ["id", "score"]
    data := fun c =>
      if c = "id" then
        some (SeriesV.mk' [Value.vint64 1, Value.vint64 2, Value.vint64 4] "id")
      else if c = "score" then
        some (SeriesV.mk' [Value.vint64 90, Value.vint64 85, Value.vint64 88] "score")
      else none
    index := IndexV.range 3
    shape := (3, 2) }

theorem claim_C5_left_merge_witness :
    ∃ F, MergeV dfC5L dfC5R (leftOpts ["id"]) = .ok F ∧
      F.shape.1 = ∑ i ∈ Finset.range dfC5L.shape.1,
        max 1 (countKey dfC5R ["id"] (buildRowKeyV dfC5L ["id"] i)) ∧
      (∀ i < dfC5L.shape.1, ∃ j < F.shape.1, ∀ c ∈ dfC5L.columns,
        F.cell (leftResultNameV dfC5L dfC5R ["id"] "_x" c) j =
          some (cellOrNil dfC5L c i)) ∧
      (∀ j li, (leftEmissions dfC5L dfC5R ["id"] ["id"]).get? j =
          some (JoinEmission.leftOnly li) →
        ∀ c rc, mappingLookup (prepResultColumns dfC5L dfC5R ["id"] ["id"]
            (leftOpts ["id"])).mapping c = some (ColSrc.right rc) →
          c ∈ (prepResultColumns dfC5L dfC5R ["id"] ["id"] (leftOpts ["id"])).cols →
          F.cell c j = some Value.vnil) :=
  claim_C5_left_merge dfC5L dfC5R ["id"]
    (by decide) (by decide) (by decide) (by decide) (by decide)


/-! ## C2 — SortValues / SortBy (src/unnamed/part_012 `SortValues`,
src/unnamed/part_008 `SortBy`)

Both methods call `sort.Slice` from the Go standard library (not part of
this repository) on an `indexedValue` slice.  Modelled from the
`sort.Slice` contract: the sort rearranges the slice so that no later
element compares less than an earlier adjacent one, and is documented as
NOT guaranteed to be stable; accordingly the sorted slice is an explicit
argument constrained to be an admissible outcome (a permutation of the
input with no adjacent inversion). -/

inductive SortOrder where
  | ascending
  | descending
deriving DecidableEq, Repr

/-- The comparison closure of `Series.SortValues`. -/
def sortValuesLess (ascending : Bool) (vi vj : Value) : Bool :=
  if vi = Value.vnil ∧ vj = Value.vnil then false
  else if vi = Value.vnil then !ascending
  else if vj = Value.vnil then ascending
  else
    match toFloat64 vi, toFloat64 vj with
    | some fi, some fj => if ascending then decide (fi < fj) else decide (fi > fj)
    | _, _ =>
      if ascending then decide (render vi < render vj) else decide (render vi > render vj)

/-- The comparison closure of `DataFrame.SortBy`. -/
def sortByLess (order : SortOrder) (vi vj : Value) : Bool :=
  if vi = Value.vnil ∧ vj = Value.vnil then false
  else if vi = Value.vnil then decide (order = SortOrder.descending)
  else if vj = Value.vnil then decide (order = SortOrder.ascending)
  else
    match toFloat64 vi, toFloat64 vj with
    | some fi, some fj =>
      if order = SortOrder.ascending then decide (fi < fj) else decide (fi > fj)
    | _, _ =>
      if order = SortOrder.ascending then decide (render vi < render vj)
      else decide (render vi > render vj)

/-- An admissible `sort.Slice` outcome (see the section comment). -/
def sortSliceAdmissible {α : Type _} (less : α → α → Bool) (input output : List α) : Prop :=
  output.Perm input ∧ List.Chain' (fun x y => less y x = false) output

/-- Executable adjacent-inversion check, to evaluate admissibility on
concrete lists. -/
def noAdjInversion {α : Type _} (less : α → α → Bool) : List α → Bool
  | [] => true
  | [_] => true
  | x :: y :: t => (!less y x) && noAdjInversion less (y :: t)

theorem noAdjInversion_iff {α : Type _} (less : α → α → Bool) :
    ∀ l : List α, noAdjInversion less l = true ↔
      List.Chain' (fun x y => less y x = false) l := by
  intro l
  induction l with
  | nil => simp [noAdjInversion]
  | cons a t ih =>
    cases t with
    | nil => simp [noAdjInversion]
    | cons b t' =>
      rw [noAdjInversion, Bool.and_eq_true, List.chain'_cons]
      constructor
      · rintro ⟨h1, h2⟩
        exact ⟨by rwa [Bool.not_eq_true'] at h1, ih.mp h2⟩
      · rintro ⟨h1, h2⟩
        exact ⟨by rwa [Bool.not_eq_true'], ih.mpr h2⟩

/-- `Series.SortValues` after `sort.Slice` produced `out` from the
`indexedValue` slice `s.data.enum`: data and labels are both read back
through the sorted pairs (`label, _ := s.index.Get(iv.index)` leaves the
label nil when the index is short). -/
def SortValuesV (s : SeriesV) (out : List (Nat × Value)) : SeriesV :=
  { name := s.name
    data := out.map Prod.snd
    dtype := s.dtype
    index := ⟨out.map (fun iv => s.index.labels.getD iv.1 Value.vnil), s.index.name⟩ }

/-- The `indexedValue` slice of `SortBy`: `{i, s.data[i]}` for
`i < df.shape[0]`. -/
def sortIndexed (df : DataFrameV) (s : SeriesV) : List (Nat × Value) :=
  (List.range df.shape.1).map fun i => (i, s.data.getD i Value.vnil)

/-- `DataFrame.SortBy` after `sort.Slice` produced `out`: missing column
returns the frame unchanged; otherwise a copy with the relabelled fresh
index and every listed column rebuilt through the sorted positions. -/
def SortByV (df : DataFrameV) (column : String) (out : List (Nat × Value)) : DataFrameV :=
  if (df.data column).isSome then
    let newIndex : IndexV :=
      ⟨out.map (fun iv => df.index.labels.getD iv.1 Value.vnil), df.index.name⟩
    { columns := df.columns
      data := fun c =>
        if c ∈ df.columns then
          (df.data c).map (fun sc =>
            SeriesV.mkWithIndex (out.map fun iv => sc.data.getD iv.1 Value.vnil) c newIndex)
        else df.data c
      index := newIndex
      shape := df.shape }
  else df

theorem enum_get? {α : Type _} (l : List α) (p : Nat × α) (h : p ∈ l.enum) :
    l.get? p.1 = some p.2 := by
  rw [List.get?_eq_getElem?]
  exact List.mem_enum_iff_getElem?.mp h

theorem chain'_step {α : Type _} (P : α → Prop) (l : List α)
    (h : List.Chain' (fun x y => P x → P y) l) (p : Nat) (x y : α)
    (hp : l.get? p = some x) (hq : l.get? (p + 1) = some y) : P x → P y := by
  obtain ⟨hlt, he⟩ := List.get?_eq_some.mp hq
  obtain ⟨hlt', he'⟩ := List.get?_eq_some.mp hp
  have hstep := List.chain'_iff_get.mp h p (by omega)
  rw [show l.get ⟨p, _⟩ = x from he', show l.get ⟨p + 1, _⟩ = y from he] at hstep
  exact hstep

theorem chain'_propagate {α : Type _} (P : α → Prop) (l : List α)
    (h : List.Chain' (fun x y => P x → P y) l) :
    ∀ p q x y, p < q → l.get? p = some x → l.get? q = some y → P x → P y := by
  have key : ∀ d p x y, l.get? p = some x → l.get? (p + d + 1) = some y → P x → P y := by
    intro d
    induction d with
    | zero =>
      intro p x y hp hq hx
      exact chain'_step P l h p x y hp (by simpa using hq) hx
    | succ d ih =>
      intro p x y hp hq hx
      have hlt : p + 1 < l.length := by
        have := (List.get?_eq_some.mp hq).1
        omega
      have hm : l.get? (p + 1) = some (l.get ⟨p + 1, hlt⟩) := List.get?_eq_get hlt
      refine ih (p + 1) _ y hm ?_ (chain'_step P l h p x _ hp hm hx)
      rw [show p + 1 + d + 1 = p + (d + 1) + 1 from by omega]
      exact hq
  intro p q x y hpq hp hq
  have hd : q = p + (q - p - 1) + 1 := by omega
  rw [hd] at hq
  exact key (q - p - 1) p x y hp hq

theorem sortValuesLess_nil_asc {b a : Value} (h : sortValuesLess true b a = false)
    (ha : a = Value.vnil) : b = Value.vnil := by
  subst ha
  by_contra hb
  rw [sortValuesLess, if_neg (by simp [hb]), if_neg hb, if_pos rfl] at h
  simp at h

theorem sortValuesLess_nil_desc {b a : Value} (h : sortValuesLess false b a = false)
    (ha : a ≠ Value.vnil) : b ≠ Value.vnil := by
  intro hb
  rw [sortValuesLess, if_neg (by simp [ha]), if_pos hb] at h
  simp at h


def sC2 : SeriesV := SeriesV.mk' [Value.vint64 1, Value.vint64 1] "k"

def outC2 : List (Nat × Value) := [(1, Value.vint64 1), (0, Value.vint64 1)]

def dfC2 : DataFrameV :=
  { columns := ["k"]
    data := fun c => if c = "k" then some sC2 else none
    index := IndexV.range 2
    shape := (2, 1) }

/-- C2 counterexample: on a two-cell series (and one-column frame) whose
cells are both `int64 1`, the reversed arrangement is an admissible
`sort.Slice` outcome (it is a permutation with no adjacent inversion,
since the keys compare equal), yet it reverses the original relative
order of the equal-key rows: the result carries index labels `[1, 0]`
instead of the stable `[0, 1]`.  `sort.Slice` guarantees no more, and is
documented as not stable, so neither `SortValues` nor `SortBy` is a
stable sort. -/
theorem claim_C2_counterexample :
    sortSliceAdmissible (fun x y => sortValuesLess true x.2 y.2) sC2.data.enum outC2 ∧
    (SortValuesV sC2 outC2).data = [Value.vint64 1, Value.vint64 1] ∧
    (SortValuesV sC2 outC2).index.labels = [Value.vint 1, Value.vint 0] ∧
    sC2.index.labels = [Value.vint 0, Value.vint 1] ∧
    sortSliceAdmissible (fun x y => sortByLess SortOrder.ascending x.2 y.2)
      (sortIndexed dfC2 sC2) outC2 ∧
    (SortByV dfC2 "k" outC2).index.labels = [Value.vint 1, Value.vint 0] ∧
    ([Value.vint 1, Value.vint 0] : List Value) ≠ [Value.vint 0, Value.vint 1] :=
  ⟨⟨List.isPerm_iff.mp (by decide), (noAdjInversion_iff _ _).mp (by decide)⟩, rfl, rfl, rfl,
    ⟨List.isPerm_iff.mp (by decide), (noAdjInversion_iff _ _).mp (by decide)⟩, rfl, by decide⟩

/-- C2 amended: for every admissible `sort.Slice` outcome, `SortValues`
keeps name and dtype, returns a permutation of the cells with no adjacent
inversion, carries cell and label together from each source position
(one permutation applied uniformly to data and index), places NA last
when ascending and first when descending, and its comparator is
numeric-first with rendered-string fallback; `SortBy` keeps the column
list and shape and applies one permutation of the row range uniformly to
the index labels and to every column's cells.  Stability is NOT
guaranteed (see the counterexample). -/
theorem claim_C2_sort_amended (s : SeriesV) (df : DataFrameV) (column : String)
    (sc : SeriesV) (asc : Bool) (ord : SortOrder) (out1 out2 : List (Nat × Value))
    (h1 : sortSliceAdmissible (fun x y => sortValuesLess asc x.2 y.2) s.data.enum out1)
    (hcol : df.data column = some sc)
    (h2 : sortSliceAdmissible (fun x y => sortByLess ord x.2 y.2) (sortIndexed df sc) out2) :
    (SortValuesV s out1).name = s.name ∧
    (SortValuesV s out1).dtype = s.dtype ∧
    ((SortValuesV s out1).data).Perm s.data ∧
    (∀ k iv, out1.get? k = some iv →
      (SortValuesV s out1).data.get? k = some iv.2 ∧
      (SortValuesV s out1).index.labels.get? k =
        some (s.index.labels.getD iv.1 Value.vnil) ∧
      s.data.get? iv.1 = some iv.2) ∧
    List.Chain' (fun u v => sortValuesLess asc v u = false) (SortValuesV s out1).data ∧
    (asc = true → ∀ p q x y, p < q → (SortValuesV s out1).data.get? p = some x →
      (SortValuesV s out1).data.get? q = some y → x = Value.vnil → y = Value.vnil) ∧
    (asc = false → ∀ p q x y, p < q → (SortValuesV s out1).data.get? p = some x →
      (SortValuesV s out1).data.get? q = some y → x ≠ Value.vnil → y ≠ Value.vnil) ∧
    (∀ vi vj fi fj, toFloat64 vi = some fi → toFloat64 vj = some fj →
      sortValuesLess asc vi vj = (if asc then decide (fi < fj) else decide (fi > fj))) ∧
    (∀ vi vj, vi ≠ Value.vnil → vj ≠ Value.vnil →
      (toFloat64 vi = none ∨ toFloat64 vj = none) →
      sortValuesLess asc vi vj = (if asc then decide (render vi < render vj)
        else decide (render vi > render vj))) ∧
    (SortByV df column out2).columns = df.columns ∧
    (SortByV df column out2).shape = df.shape ∧
    ((out2.map Prod.fst).Perm (List.range df.shape.1)) ∧
    (∀ k iv, out2.get? k = some iv →
      (SortByV df column out2).index.labels.get? k =
        some (df.index.labels.getD iv.1 Value.vnil) ∧
      (∀ c s', c ∈ df.columns → df.data c = some s' →
        (SortByV df column out2).cell c k = some (s'.data.getD iv.1 Value.vnil))) := by
  have hch0 : List.Chain' (fun u v => sortValuesLess asc v u = false)
      (SortValuesV s out1).data :=
    (List.chain'_map Prod.snd).mpr h1.2
  have hsome : (df.data column).isSome = true := by rw [hcol]; rfl
  have hSB : SortByV df column out2 =
      ⟨df.columns,
        fun c => if c ∈ df.columns then
          (df.data c).map (fun sc' =>
            SeriesV.mkWithIndex (out2.map fun iv => sc'.data.getD iv.1 Value.vnil) c
              ⟨out2.map (fun iv => df.index.labels.getD iv.1 Value.vnil), df.index.name⟩)
          else df.data c,
        ⟨out2.map (fun iv => df.index.labels.getD iv.1 Value.vnil), df.index.name⟩,
        df.shape⟩ := by
    rw [SortByV, if_pos hsome]
  refine ⟨rfl, rfl, ?_, ?_, hch0, ?_, ?_, ?_, ?_, ?_, ?_, ?_, ?_⟩
  · have hperm := h1.1.map Prod.snd
    rwa [List.enum_map_snd] at hperm
  · intro k iv hk
    refine ⟨?_, ?_, ?_⟩
    · show (out1.map Prod.snd).get? k = some iv.2
      rw [List.get?_map, hk, Option.map_some']
    · show (out1.map (fun iv => s.index.labels.getD iv.1 Value.vnil)).get? k = _
      rw [List.get?_map, hk, Option.map_some']
    · have hmem : iv ∈ out1 := List.get?_mem hk
      exact enum_get? s.data iv (h1.1.mem_iff.mp hmem)
  · intro hasc p q x y hpq hp hq hx
    subst hasc
    have hch : List.Chain' (fun u v => u = Value.vnil → v = Value.vnil)
        (SortValuesV s out1).data :=
      List.Chain'.imp (fun a b hab ha => sortValuesLess_nil_asc hab ha) hch0
    exact chain'_propagate _ _ hch p q x y hpq hp hq hx
  · intro hasc p q x y hpq hp hq hx
    subst hasc
    have hch : List.Chain' (fun u v => u ≠ Value.vnil → v ≠ Value.vnil)
        (SortValuesV s out1).data :=
      List.Chain'.imp (fun a b hab ha => sortValuesLess_nil_desc hab ha) hch0
    exact chain'_propagate _ _ hch p q x y hpq hp hq hx
  · intro vi vj fi fj hfi hfj
    have hvi : vi ≠ Value.vnil := by
      intro h
      rw [h] at hfi
      exact Option.noConfusion hfi
    have hvj : vj ≠ Value.vnil := by
      intro h
      rw [h] at hfj
      exact Option.noConfusion hfj
    rw [sortValuesLess, if_neg (by simp [hvi]), if_neg hvi, if_neg hvj, hfi, hfj]
  · intro vi vj hvi hvj hnone
    rw [sortValuesLess, if_neg (by simp [hvi]), if_neg hvi, if_neg hvj]
    cases hfi : toFloat64 vi with
    | none =>
      cases hfj : toFloat64 vj with
      | none => rfl
      | some fj => rfl
    | some fi =>
      cases hfj : toFloat64 vj with
      | none => rfl
      | some fj =>
        rcases hnone with h | h
        · rw [hfi] at h
          exact Option.noConfusion h
        · rw [hfj] at h
          exact Option.noConfusion h
  · rw [hSB]
  · rw [hSB]
  · have hperm := h2.1.map Prod.fst
    have hfst : (sortIndexed df sc).map Prod.fst = List.range df.shape.1 := by
      rw [sortIndexed, List.map_map]
      exact List.map_id' _
    rwa [hfst] at hperm
  · intro k iv hk
    refine ⟨?_, ?_⟩
    · rw [hSB]
      show (out2.map (fun iv => df.index.labels.getD iv.1 Value.vnil)).get? k = _
      rw [List.get?_map, hk, Option.map_some']
    · intro c s' hcmem hdc
      rw [hSB, DataFrameV.cell]
      show ((if c ∈ df.columns then
          (df.data c).map (fun sc' =>
            SeriesV.mkWithIndex (out2.map fun iv => sc'.data.getD iv.1 Value.vnil) c
              ⟨out2.map (fun iv => df.index.labels.getD iv.1 Value.vnil), df.index.name⟩)
          else df.data c).bind fun sr => sr.data.get? k) = _
      rw [if_pos hcmem, hdc, Option.map_some', Option.some_bind]
      show (out2.map fun iv => s'.data.getD iv.1 Value.vnil).get? k = _
      rw [List.get?_map, hk, Option.map_some']


def sW : SeriesV := SeriesV.mk' [Value.vint64 3, Value.vnil, Value.vint64 1] "v"

def dfW : DataFrameV :=
  { columns := ["v", "w"]
    data := fun c =>
      if c = "v" then some sW
      else if c = "w" then
        some (SeriesV.mk' [Value.vstr "a", Value.vstr "b", Value.vstr "c"] "w")
      else none
    index := IndexV.range 3
    shape := (3, 2) }

def outW : List (Nat × Value) := [(2, Value.vint64 1), (0, Value.vint64 3), (1, Value.vnil)]

theorem claim_C2_sort_amended_witness :
    (SortValuesV sW outW).name = sW.name ∧
    (SortValuesV sW outW).dtype = sW.dtype ∧
    ((SortValuesV sW outW).data).Perm sW.data ∧
    (∀ k iv, outW.get? k = some iv →
      (SortValuesV sW outW).data.get? k = some iv.2 ∧
      (SortValuesV sW outW).index.labels.get? k =
        some (sW.index.labels.getD iv.1 Value.vnil) ∧
      sW.data.get? iv.1 = some iv.2) ∧
    List.Chain' (fun u v => sortValuesLess true v u = false) (SortValuesV sW outW).data ∧
    (true = true → ∀ p q x y, p < q → (SortValuesV sW outW).data.get? p = some x →
      (SortValuesV sW outW).data.get? q = some y → x = Value.vnil → y = Value.vnil) ∧
    (true = false → ∀ p q x y, p < q → (SortValuesV sW outW).data.get? p = some x →
      (SortValuesV sW outW).data.get? q = some y → x ≠ Value.vnil → y ≠ Value.vnil) ∧
    (∀ vi vj fi fj, toFloat64 vi = some fi → toFloat64 vj = some fj →
      sortValuesLess true vi vj = (if true then decide (fi < fj) else decide (fi > fj))) ∧
    (∀ vi vj, vi ≠ Value.vnil → vj ≠ Value.vnil →
      (toFloat64 vi = none ∨ toFloat64 vj = none) →
      sortValuesLess true vi vj = (if true then decide (render vi < render vj)
        else decide (render vi > render vj))) ∧
    (SortByV dfW "v" outW).columns = dfW.columns ∧
    (SortByV dfW "v" outW).shape = dfW.shape ∧
    ((outW.map Prod.fst).Perm (List.range dfW.shape.1)) ∧
    (∀ k iv, outW.get? k = some iv →
      (SortByV dfW "v" outW).index.labels.get? k =
        some (dfW.index.labels.getD iv.1 Value.vnil) ∧
      (∀ c s', c ∈ dfW.columns → dfW.data c = some s' →
        (SortByV dfW "v" outW).cell c k = some (s'.data.getD iv.1 Value.vnil))) :=
  claim_C2_sort_amended sW dfW "v" sW true SortOrder.ascending outW outW
    ⟨List.isPerm_iff.mp (by decide), (noAdjInversion_iff _ _).mp (by decide)⟩
    rfl
    ⟨List.isPerm_iff.mp (by decide), (noAdjInversion_iff _ _).mp (by decide)⟩

end Datago
